import Mathlib

/-!
Verification of the Spec-Driven Development web application.

This file gives a shallow embedding of the application's internal logic:

* the prompt-template substitution engine (`getPromptForAgent` from the
  server's prompt module, together with the five literal prompt templates);
* the workflow / document / document-version store
  (`DatabaseStorage` from `server/storage.ts`, including the `ON DELETE
  CASCADE` behaviour declared in the relational schema);
* the workflow-execution route (`POST /api/workflows/:id/execute` from
  `server/routes.ts`), modelled as a function from the provider stream's
  outcome to the emitted event sequence and the resulting store;
* the document-validation route (`POST /api/documents/:id/validate`),
  modelled together with a JSON parser standing in for `JSON.parse`.

JavaScript strings are modelled by Lean `String`; the global literal-pattern
`String.prototype.replace` used by the substitution engine is modelled by an
explicit scan over the character list.  Machine integers in the store are
modelled by `Nat` (ids and version counters never approach overflow ranges
relevant to the claims).  Theorems about the individual claims follow the
definitions.
-/

namespace SDD

/-! ## Character-list string primitives

The substitution engine calls `String.prototype.replace` with a global
regular expression built from the literal placeholder text.  For the
placeholder patterns this program constructs (`{{key}}` with an
identifier-like key), that is exactly global literal-substring replacement,
which we model explicitly on the underlying character list. -/

/-- Boolean test that `pat` occurs as a contiguous substring. -/
def containsL (pat : List Char) : List Char → Bool
  | [] => pat.isEmpty
  | c :: rest => pat.isPrefixOf (c :: rest) || containsL pat rest

/-- Boolean test that the string `pat` occurs inside `s`. -/
def strContains (s pat : String) : Bool := containsL pat.data s.data

/-- The scan behind `replaceAllL`, structurally recursive on a fuel bound
on the input length (every step consumes at least one character, so any
fuel of at least the input length yields the full scan). -/
def replaceAllGo (pat repl : List Char) : Nat → List Char → List Char
  | 0, s => s
  | fuel + 1, s =>
    match s with
    | [] => []
    | c :: rest =>
      if pat.isPrefixOf (c :: rest) && !pat.isEmpty
      then repl ++ replaceAllGo pat repl fuel (List.drop (pat.length - 1) rest)
      else c :: replaceAllGo pat repl fuel rest

/-- Replace every (left-to-right, non-overlapping) occurrence of the
non-empty pattern `pat` by `repl`, exactly as the JavaScript global literal
replace does.  An empty pattern never arises in this program (placeholders
always carry their surrounding braces); for totality it leaves the input
unchanged. -/
def replaceAllL (pat repl : List Char) (s : List Char) : List Char :=
  replaceAllGo pat repl s.length s

/-- Split at every (left-to-right, non-overlapping) occurrence of the
non-empty pattern `pat`; the resulting parts are the maximal pattern-free
segments between occurrences. -/
def splitOnL (pat : List Char) : List Char → List (List Char)
  | [] => [[]]
  | c :: rest =>
    if pat.isPrefixOf (c :: rest) && !pat.isEmpty
    then [] :: splitOnL pat (List.drop (pat.length - 1) rest)
    else
      match splitOnL pat rest with
      | [] => [[c]]
      | p :: ps => (c :: p) :: ps
termination_by s => s.length
decreasing_by
  · simp only [List.length_drop, List.length_cons]; omega
  · simp [List.length_cons]

/-- Interleave the separator `sep` between the given parts. -/
def intercalateL (sep : List Char) : List (List Char) → List Char
  | [] => []
  | [p] => p
  | p :: ps => p ++ sep ++ intercalateL sep ps

/-- String-level wrapper for `replaceAllL`: the model of
`s.replace(new RegExp(pat, "g"), repl)` as exact literal global
replacement.  The source interpolates the pattern into the regex unescaped
and passes `repl` as a `$`-interpreting replacement string, so this model
is faithful exactly when the interpolated key contains no regex
metacharacter and `repl` contains no `$` sequence — which holds for the
identifier-like keys used by the templates and for the bracketed sentinel,
but not for arbitrary keys or values (see the C7 record). -/
def replaceAllStr (s pat repl : String) : String := ⟨replaceAllL pat.data repl.data s.data⟩

/-- String-level wrapper for `splitOnL`. -/
def strSplitOn (s pat : String) : List String := (splitOnL pat.data s.data).map String.mk

/-- String-level wrapper for `intercalateL`. -/
def strIntercalate (sep : String) (parts : List String) : String :=
  ⟨intercalateL sep.data (parts.map String.data)⟩

/-! ## Shared schema: agent types and context variables -/

/-- The fixed closed set of five agent identifiers (`agentTypes` in the
shared schema). -/
inductive AgentType where
  | decision_author
  | analyst
  | architect
  | scrum_master
  | developer
deriving Repr, DecidableEq

/-- A context variable as in the shared schema: key, value, optional
description. -/
structure ContextVariable where
  key : String
  value : String
  description : Option String := none
deriving Repr, DecidableEq

/-! ## The prompt templates (the `PROMPTS` record)

The five template strings are reproduced verbatim from the prompt module;
brace characters are written with `\x7b` / `\x7d` escapes. -/

/-- The `decision_author` prompt template from the `PROMPTS` record. -/
def promptDecisionAuthor : String := "You are operating as a spec-driven systems architect and technical strategist.
Your primary responsibility is to produce a formal, decision-oriented specification that defines how an organization selects and applies Spec-Driven Development (SDDD) tools and methodologies.
You must treat the specification as the source of truth. Any code, tooling guidance, or workflow descriptions are derivative artifacts.

Operating Constraints:
- Do not generate code unless explicitly instructed.
- Do not rely on vague generalities, marketing language, or unstructured opinion.
- Do not collapse distinct tools or methodologies into a single blended approach.
- Do not introduce tables unless explicitly requested.
- Avoid \"vibe coding\" behaviors: every recommendation must be justified by explicit reasoning.

Audience and Context:
- Intended audience: \x7b\x7btarget_audience\x7d\x7d
- Organizational context: \x7b\x7borganization_type\x7d\x7d
- Regulatory sensitivity: \x7b\x7bregulatory_level\x7d\x7d
- AI maturity level: \x7b\x7bai_maturity_level\x7d\x7d

Assume the readers are technically sophisticated and require clarity, traceability, and decision rationale.

Specification Objectives:
You must produce a specification that:
1. Defines Spec-Driven Development (SDDD) as a methodological response to unstructured AI coding.
2. Establishes the specification as the authoritative artifact, with code treated as a downstream output.
3. Presents a decision framework for selecting among:
   - \x7b\x7btool_1\x7d\x7d (e.g., AWS Kiro)
   - \x7b\x7btool_2\x7d\x7d (e.g., GitHub Spec Kit)
   - \x7b\x7btool_3\x7d\x7d (e.g., OpenSpec)
   - \x7b\x7btool_4\x7d\x7d (e.g., BMAD Method)
4. Clearly differentiates each tool or method by:
   - Philosophical orientation
   - Workflow structure
   - Governance strength
   - Ideal project fit (greenfield vs brownfield, scale, compliance)
5. Explicitly addresses how each approach mitigates:
   - Context loss
   - Architectural drift
   - AI hallucination risk
   - Accumulation of technical debt

Required Structure:
Generate the specification using clear narrative sections, including but not limited to:
- Introduction to SDDD and the problem it solves
- Why unstructured AI coding fails at scale
- Overview of proprietary vs open-source vs methodological approaches
- Deep analysis of each tool or framework
- Decision guidance based on:
  - \x7b\x7bproject_type\x7d\x7d
  - \x7b\x7bsystem_complexity\x7d\x7d
  - \x7b\x7bgovernance_priority\x7d\x7d
  - \x7b\x7bexisting_codebase_state\x7d\x7d
- Final decision summary with explicit selection criteria, not rankings

Write with the authority of a principal engineer or enterprise architect.
Prefer causal explanations (\"because\", \"therefore\", \"as a result\") over descriptive lists.
Emphasize decision traceability and long-term system integrity.
Optimize for correctness, not brevity."

/-- The `analyst` prompt template from the `PROMPTS` record. -/
def promptAnalyst : String := "You are operating as a Senior Analyst and Product Manager Agent within a Spec-Driven Development (SDDD) workflow.
Your responsibility is to produce professional, decision-grade documentation that serves as the authoritative source of truth for downstream architecture, implementation, and validation.
You operate before any design or code is produced.
The outputs you create must be sufficient for architects, developers, QA agents, and AI systems to act without ambiguity.

Core Mission:
Your mission is to:
1. Extract, clarify, and formalize requirements from \x7b\x7binput_sources\x7d\x7d.
2. Transform ambiguous goals into explicit, testable, and prioritized requirements.
3. Produce initial specifications that eliminate assumption-based interpretation.
4. Establish clear product intent, scope boundaries, and success criteria.

You are accountable for problem definition quality.
If requirements are unclear, incomplete, or contradictory, you must surface and resolve them in the specification rather than deferring them downstream.

Operating Constraints:
- Do not propose architecture, implementation details, or code.
- Do not optimize for speed at the expense of clarity.
- Do not rely on informal language, marketing claims, or implied intent.
- Do not introduce solution bias unless explicitly instructed.
- Avoid \"vibe specification\": every requirement must be justified or traceable.

If information is missing, explicitly document:
- Open questions
- Assumptions
- Risks
- Required stakeholder decisions

Audience and Context:
Assume your outputs will be consumed by:
- Architects and senior engineers
- AI coding agents
- QA and compliance reviewers
- Executive stakeholders

Context variables:
- Organization type: \x7b\x7borganization_type\x7d\x7d
- Product domain: \x7b\x7bproduct_domain\x7d\x7d
- Target users: \x7b\x7btarget_users\x7d\x7d
- Regulatory sensitivity: \x7b\x7bregulatory_level\x7d\x7d
- Delivery constraints: \x7b\x7bdelivery_constraints\x7d\x7d

Write with a professional, enterprise-grade tone suitable for formal review.

Required Artifacts:
You must produce one or more of the following, as appropriate:

1. Project Brief
Include:
- Problem statement (what is broken or missing, and why it matters)
- Business objectives and non-objectives
- Success metrics and acceptance criteria
- In-scope and out-of-scope definitions
- Key risks and dependencies

2. Product Requirements Document (PRD)
Include:
- Functional requirements (clear, numbered, testable)
- Non-functional requirements (performance, security, compliance, usability)
- User personas and primary use cases
- Constraints and assumptions
- Explicit trade-offs and rationale

3. Initial Specification
Include:
- System intent (what the system must achieve, not how)
- Requirement traceability references
- Open decisions and unresolved questions
- Glossary of terms to eliminate ambiguity

Requirement Quality Standards:
All requirements must be:
- Unambiguous: only one reasonable interpretation
- Testable: verifiable without subjective judgment
- Traceable: linked to a business or user goal
- Prioritized: critical vs optional must be explicit
- Stable: changes require an explicit proposal, not silent edits"

/-- The `architect` prompt template from the `PROMPTS` record. -/
def promptArchitect : String := "You are operating as a Principal Systems Architect Agent within a Spec-Driven Development (SDDD) workflow.
Your responsibility is to translate approved requirements and specifications into a coherent, enforceable system architecture while ensuring strict alignment with governing principles defined in \x7b\x7bconstitution_file\x7d\x7d (\"The Constitution\").
You do not write application code.
Your output defines the structural truth that all implementation must conform to.

Core Mission:
Your mission is to:
1. Design a system architecture that satisfies all approved requirements.
2. Define clear component boundaries, responsibilities, and interfaces.
3. Ensure architectural decisions explicitly comply with \x7b\x7bconstitution_file\x7d\x7d.
4. Identify and resolve architectural risks before implementation begins.
5. Preserve decision traceability for future audits and evolution.

You are accountable for architectural integrity and coherence.
If requirements are internally inconsistent, infeasible, or violate constitutional constraints, you must escalate and document the conflict.

Inputs You May Rely On:
You may only base decisions on:
- Approved Project Brief(s)
- Approved Product Requirements Document(s)
- Initial Specification(s)
- The Constitution: \x7b\x7bconstitution_file\x7d\x7d
- Explicit constraints in \x7b\x7borganizational_constraints\x7d\x7d

You must not invent requirements, relax constraints, or infer intent beyond what is documented.

Operating Constraints:
- Do not generate implementation-level code.
- Do not introduce tools, frameworks, or technologies without justification.
- Do not bypass or reinterpret constitutional rules.
- Do not optimize prematurely for performance or cost unless required.
- Avoid architectural \"vibe decisions\": every design choice must be reasoned.

When trade-offs are required, you must document:
- Options considered
- Constraints influencing the decision
- Rationale for the chosen approach
- Consequences and risks

Context variables:
- System type: \x7b\x7bsystem_type\x7d\x7d
- Deployment environment: \x7b\x7bdeployment_environment\x7d\x7d
- Scalability expectations: \x7b\x7bscalability_requirements\x7d\x7d
- Availability targets: \x7b\x7bavailability_targets\x7d\x7d
- Regulatory sensitivity: \x7b\x7bregulatory_level\x7d\x7d

Required Architectural Artifacts:
You must produce one or more of the following artifacts, as appropriate:

1. Architecture Overview
Include:
- High-level system decomposition
- Core responsibilities of each component
- Architectural style(s) used (e.g., layered, event-driven, service-oriented)
- Explicit mapping to requirements

2. Component and Boundary Definition
Include:
- Component responsibilities and invariants
- Public interfaces and data contracts
- Ownership and lifecycle boundaries
- Explicit non-responsibilities (what a component must not do)

3. Interaction and Dependency Model
Include:
- Communication patterns (sync vs async)
- Dependency direction and constraints
- Failure modes and isolation boundaries
- Data flow and control flow explanations

4. Constitutional Compliance Assessment
Include:
- Explicit references to each applicable constitutional rule
- Evidence of compliance or justified exceptions
- Identified risks or tensions with constitutional principles

5. Architectural Decision Records (ADRs)
For each major decision:
- Context and constraints
- Decision made
- Alternatives considered
- Consequences (positive and negative)"

/-- The `scrum_master` prompt template from the `PROMPTS` record. -/
def promptScrumMaster : String := "You are operating as a Senior Scrum Master / Delivery Orchestration Agent within a Spec-Driven Development (SDDD) workflow.
Your responsibility is to decompose approved plans and architecture into hyper-detailed, testable user stories and tasks that can be executed deterministically by human developers or AI coding agents—without ambiguity or interpretation.
You do not design architecture or write production code.
Your output defines the execution contract for implementation.

Core Mission:
Your mission is to:
1. Translate architectural plans and decisions into well-scoped, executable stories and tasks.
2. Ensure every unit of work is testable, traceable, and unambiguous.
3. Preserve alignment with:
   - Approved requirements
   - The Constitution: \x7b\x7bconstitution_file\x7d\x7d
   - Architectural decisions

Operating Constraints:
- Do not invent new requirements or features.
- Do not redesign architecture or propose alternative approaches.
- Do not leave implementation details ambiguous.
- Avoid vague language like \"should\", \"might\", or \"if appropriate\".

Context variables:
- Sprint duration: \x7b\x7bsprint_duration\x7d\x7d
- Team size: \x7b\x7bteam_size\x7d\x7d
- Velocity baseline: \x7b\x7bvelocity_baseline\x7d\x7d

Required Artifacts:

1. User Stories
Each story must include:
- Title: Clear, action-oriented summary
- Description: As a [role], I want [capability] so that [benefit]
- Acceptance Criteria: Numbered, testable conditions
- Dependencies: Explicit references to other stories or components
- Estimated Effort: Story points or time estimate

2. Task Breakdown
Each task must include:
- Parent Story: Reference to the user story
- Task Description: Specific, actionable work item
- Files Affected: List of files to create or modify
- Test Requirements: Unit tests, integration tests expected
- Completion Criteria: How to verify the task is done

3. Sprint Plan
Include:
- Sprint Goal: Clear objective for the sprint
- Committed Stories: List with priorities
- Capacity Allocation: Team member assignments
- Risk Mitigation: Known blockers and contingencies"

/-- The `developer` prompt template from the `PROMPTS` record. -/
def promptDeveloper : String := "You are operating as a Senior Developer Agent within a Spec-Driven Development (SDDD) workflow.
Your responsibility is to implement code that precisely fulfills approved specifications, architecture, and task definitions.
You do not design architecture or define requirements.
Your output must be production-quality code that passes all defined acceptance criteria.

Core Mission:
Your mission is to:
1. Implement code that satisfies the approved specifications exactly.
2. Follow architectural decisions without deviation.
3. Ensure compliance with \x7b\x7bconstitution_file\x7d\x7d coding standards.
4. Write comprehensive tests as defined in task requirements.
5. Document code appropriately for maintainability.

Operating Constraints:
- Do not add features not specified in requirements.
- Do not deviate from architectural decisions.
- Do not skip required tests or documentation.
- Do not introduce dependencies without justification.
- Follow \x7b\x7bcoding_standards\x7d\x7d strictly.

Context variables:
- Coding standards: \x7b\x7bcoding_standards\x7d\x7d
- Testing requirements: \x7b\x7btesting_requirements\x7d\x7d
- Technology stack: \x7b\x7btech_stack\x7d\x7d

Required Outputs:

1. Implementation Code
- Clean, well-structured code following specifications
- Proper error handling and edge case coverage
- Adherence to coding standards and style guides
- No hardcoded values or magic numbers

2. Tests
- Unit tests for all functions/methods
- Integration tests as specified
- Test coverage meeting minimum thresholds
- Clear test descriptions and assertions

3. Documentation
- Inline comments for complex logic
- Function/method documentation
- API documentation if applicable
- README updates if introducing new components"

/-- The `PROMPTS` record: agent type to prompt template. -/
def PROMPTS : AgentType → String
  | .decision_author => promptDecisionAuthor
  | .analyst => promptAnalyst
  | .architect => promptArchitect
  | .scrum_master => promptScrumMaster
  | .developer => promptDeveloper

/-! ## The substitution engine (`getPromptForAgent`) -/

/-- The placeholder text built for a variable key: `` `{{${key}}}` ``. -/
def placeholderStr (key : String) : String := "\x7b\x7b" ++ key ++ "\x7d\x7d"

/-- The sentinel used when a supplied variable has a falsy (empty) value:
`` `[${key} not specified]` ``. -/
def sentinelStr (key : String) : String := "[" ++ key ++ " not specified]"

/-- The replacement text used for one supplied variable:
`variable.value || sentinel` (the JavaScript `||` makes the empty string
fall back to the sentinel). -/
def substValue (v : ContextVariable) : String :=
  if v.value = "" then sentinelStr v.key else v.value

/-- The variable-substitution loop of `getPromptForAgent`: for each supplied
variable, globally replace its placeholder in the current prompt text.
It inherits the fidelity scope of `replaceAllStr`: faithful for
identifier-like keys and `$`-free replacement values. -/
def substituteVars (prompt : String) (vars : List ContextVariable) : String :=
  vars.foldl (fun p v => replaceAllStr p (placeholderStr v.key) (substValue v)) prompt

/-- The fixed phrase substituted for the reserved placeholder when a
constitution is supplied. -/
def constitutionPhrase : String := "the project constitution"

/-- The reserved constitution placeholder `{{constitution_file}}`. -/
def constitutionPlaceholder : String := placeholderStr "constitution_file"

/-- The model of `getPromptForAgent(agentType, variables, constitution?)`:
substitute each supplied variable; then, only when the constitution argument
is present and non-empty (JavaScript truthiness of `if (constitution)`),
replace the reserved placeholder and append the constitution as a trailing
section. -/
def getPromptForAgent (agentType : AgentType) (vars : List ContextVariable)
    (constitution : Option String) : String :=
  let prompt := substituteVars (PROMPTS agentType) vars
  match constitution with
  | some c =>
    if c = "" then prompt
    else
      replaceAllStr prompt constitutionPlaceholder constitutionPhrase
        ++ "\n\n---\nProject Constitution:\n" ++ c
  | none => prompt

/-- The `getOutputTypeForAgent` mapping. -/
def getOutputTypeForAgent : AgentType → String
  | .decision_author => "SDDD Decision Specification"
  | .analyst => "Product Requirements Document"
  | .architect => "Architecture Overview"
  | .scrum_master => "Sprint Plan"
  | .developer => "Implementation Plan"

/-! ## The relational store (`DatabaseStorage` over the declared schema)

Rows mirror the `workflows`, `documents`, `document_versions` and `settings`
tables.  Serial primary keys are modelled by per-table counters; `jsonb`
context variables by a list; the constitution singleton by an optional
string under its fixed settings key.  The `status` column is a bare varchar
exactly as declared. -/

/-- A row of the `workflows` table. -/
structure WorkflowRow where
  id : Nat
  name : String
  description : Option String := none
  status : String := "draft"
  currentAgent : Option AgentType := none
  contextVariables : List ContextVariable := []
  constitutionContent : Option String := none
deriving Repr, DecidableEq

/-- A row of the `documents` table. -/
structure DocumentRow where
  id : Nat
  workflowId : Option Nat := none
  agentType : AgentType
  title : String
  content : String
  outputType : String
  version : Nat := 1
deriving Repr, DecidableEq

/-- A row of the `document_versions` table. -/
structure DocumentVersionRow where
  id : Nat
  documentId : Nat
  version : Nat
  content : String
deriving Repr, DecidableEq

/-- The store: the four relational entities relevant to the specified
logic, with serial-id counters. -/
structure StoreState where
  workflows : List WorkflowRow := []
  documents : List DocumentRow := []
  documentVersions : List DocumentVersionRow := []
  constitutionSetting : Option String := none
  nextWorkflowId : Nat := 1
  nextDocumentId : Nat := 1
  nextVersionId : Nat := 1
deriving Repr, DecidableEq

/-- The empty database (serial counters start at 1). -/
def initialStore : StoreState := {}

/-- Insert payload of `createWorkflow`. -/
structure InsertWorkflow where
  name : String
  description : Option String := none
  status : Option String := none
  currentAgent : Option AgentType := none
  contextVariables : Option (List ContextVariable) := none
  constitutionContent : Option String := none
deriving Repr, DecidableEq

/-- Partial update payload of `updateWorkflow` (absent fields untouched). -/
structure WorkflowUpdates where
  name : Option String := none
  description : Option (Option String) := none
  status : Option String := none
  currentAgent : Option (Option AgentType) := none
  contextVariables : Option (List ContextVariable) := none
  constitutionContent : Option (Option String) := none
deriving Repr, DecidableEq

/-- Insert payload of `createDocument` (version is forced to 1 by the
implementation). -/
structure InsertDocument where
  workflowId : Option Nat := none
  agentType : AgentType
  title : String
  content : String
  outputType : String
deriving Repr, DecidableEq

/-- Partial update payload of `updateDocument` (absent fields untouched;
the implementation overwrites `version` itself). -/
structure DocumentUpdates where
  workflowId : Option (Option Nat) := none
  agentType : Option AgentType := none
  title : Option String := none
  content : Option String := none
  outputType : Option String := none
deriving Repr, DecidableEq

/-- Model of `getWorkflow`: select by id. -/
def getWorkflow (s : StoreState) (id : Nat) : Option WorkflowRow :=
  s.workflows.find? (fun w => w.id == id)

/-- Model of `createWorkflow`: insert with `status: data.status || "draft"`
and `contextVariables: data.contextVariables || []`. -/
def createWorkflow (s : StoreState) (data : InsertWorkflow) : StoreState × WorkflowRow :=
  let w : WorkflowRow :=
    { id := s.nextWorkflowId
      name := data.name
      description := data.description
      status := match data.status with
        | some st => if st = "" then "draft" else st
        | none => "draft"
      currentAgent := data.currentAgent
      contextVariables := data.contextVariables.getD []
      constitutionContent := data.constitutionContent }
  ({ s with workflows := s.workflows ++ [w], nextWorkflowId := s.nextWorkflowId + 1 }, w)

/-- Apply a partial workflow update to one row (`.set({...updates})`). -/
def applyWorkflowUpdates (u : WorkflowUpdates) (w : WorkflowRow) : WorkflowRow :=
  { w with
      name := u.name.getD w.name
      description := u.description.getD w.description
      status := u.status.getD w.status
      currentAgent := u.currentAgent.getD w.currentAgent
      contextVariables := u.contextVariables.getD w.contextVariables
      constitutionContent := u.constitutionContent.getD w.constitutionContent }

/-- Model of `updateWorkflow`: update all rows matching the id, return the
updated row if one exists. -/
def updateWorkflow (s : StoreState) (id : Nat) (u : WorkflowUpdates) :
    StoreState × Option WorkflowRow :=
  let s2 := { s with
    workflows := s.workflows.map (fun w => if w.id == id then applyWorkflowUpdates u w else w) }
  (s2, s2.workflows.find? (fun w => w.id == id))

/-- Model of `deleteWorkflow` together with the schema's cascades: deleting
a workflow deletes the documents that reference it (`onDelete: "cascade"`
on `documents.workflowId`) and, transitively, the version rows referencing
those documents (`onDelete: "cascade"` on `documentVersions.documentId`). -/
def deleteWorkflow (s : StoreState) (id : Nat) : StoreState :=
  let deletedDocIds := (s.documents.filter (fun d => d.workflowId == some id)).map (fun d => d.id)
  { s with
      workflows := s.workflows.filter (fun w => !(w.id == id))
      documents := s.documents.filter (fun d => !(d.workflowId == some id))
      documentVersions :=
        s.documentVersions.filter (fun v => !(deletedDocIds.contains v.documentId)) }

/-- Model of `duplicateWorkflow`: read the original and create a copy named
`` `${original.name} (Copy)` `` with status `draft`. -/
def duplicateWorkflow (s : StoreState) (id : Nat) : StoreState × Option WorkflowRow :=
  match getWorkflow s id with
  | none => (s, none)
  | some original =>
    let created := createWorkflow s
      { name := original.name ++ " (Copy)"
        description := original.description
        status := some "draft"
        currentAgent := original.currentAgent
        contextVariables := some original.contextVariables
        constitutionContent := original.constitutionContent }
    (created.1, some created.2)

/-- Model of `getDocument`: select by id. -/
def getDocument (s : StoreState) (id : Nat) : Option DocumentRow :=
  s.documents.find? (fun d => d.id == id)

/-- The row inserted by `createDocument`: the payload with a fresh serial
id and `version: 1`. -/
def newDocument (s : StoreState) (data : InsertDocument) : DocumentRow :=
  { id := s.nextDocumentId
    workflowId := data.workflowId
    agentType := data.agentType
    title := data.title
    content := data.content
    outputType := data.outputType
    version := 1 }

/-- Model of `createDocument`: insert with `version: 1`. -/
def createDocument (s : StoreState) (data : InsertDocument) : StoreState × DocumentRow :=
  ({ s with
      documents := s.documents ++ [newDocument s data]
      nextDocumentId := s.nextDocumentId + 1 },
    newDocument s data)

/-- Model of `createDocumentVersion`: insert a snapshot row. -/
def createDocumentVersion (s : StoreState) (documentId version : Nat) (content : String) :
    StoreState × DocumentVersionRow :=
  let row : DocumentVersionRow :=
    { id := s.nextVersionId, documentId := documentId, version := version, content := content }
  ({ s with documentVersions := s.documentVersions ++ [row], nextVersionId := s.nextVersionId + 1 },
    row)

/-- Apply a partial document update to one row, forcing the new version
(`.set({...updates, version: (current.version || 1) + 1})`). -/
def applyDocumentUpdates (u : DocumentUpdates) (newVersion : Nat) (d : DocumentRow) : DocumentRow :=
  { d with
      workflowId := u.workflowId.getD d.workflowId
      agentType := u.agentType.getD d.agentType
      title := u.title.getD d.title
      content := u.content.getD d.content
      outputType := u.outputType.getD d.outputType
      version := newVersion }

/-- Model of `updateDocument`: read the current row; if absent, report not
found and perform no writes; otherwise insert a version row carrying the
pre-update content and version (`current.version || 1`), then update the
document with the incremented version. -/
def updateDocument (s : StoreState) (id : Nat) (u : DocumentUpdates) :
    StoreState × Option DocumentRow :=
  match getDocument s id with
  | none => (s, none)
  | some current =>
    let prevVersion := if current.version = 0 then 1 else current.version
    let s1 := (createDocumentVersion s id prevVersion current.content).1
    let s2 := { s1 with
      documents := s1.documents.map
        (fun d => if d.id == id then applyDocumentUpdates u (prevVersion + 1) d else d) }
    (s2, s2.documents.find? (fun d => d.id == id))

/-- Model of `deleteDocument` with the schema's cascade to its version
rows. -/
def deleteDocument (s : StoreState) (id : Nat) : StoreState :=
  { s with
      documents := s.documents.filter (fun d => !(d.id == id))
      documentVersions := s.documentVersions.filter (fun v => !(v.documentId == id)) }

/-- Descending insertion by version number (model of `ORDER BY version DESC`
on rows whose version numbers are pairwise distinct). -/
def insertByVersionDesc (v : DocumentVersionRow) :
    List DocumentVersionRow → List DocumentVersionRow
  | [] => [v]
  | w :: ws => if v.version ≥ w.version then v :: w :: ws else w :: insertByVersionDesc v ws

/-- Sort version rows by version descending. -/
def sortByVersionDesc (l : List DocumentVersionRow) : List DocumentVersionRow :=
  l.foldr insertByVersionDesc []

/-- Model of `getDocumentVersions`: the version rows of one document,
ordered by version descending. -/
def getDocumentVersions (s : StoreState) (documentId : Nat) : List DocumentVersionRow :=
  sortByVersionDesc (s.documentVersions.filter (fun v => v.documentId == documentId))

/-- Model of `getConstitution`: the settings value under the fixed key, or
the empty string (`setting?.value || ""`). -/
def getConstitution (s : StoreState) : String :=
  match s.constitutionSetting with
  | some v => v
  | none => ""

/-- Model of `setConstitution`: upsert the singleton settings row. -/
def setConstitution (s : StoreState) (content : String) : StoreState :=
  { s with constitutionSetting := some content }

/-! ## The execution route (`POST /api/workflows/:id/execute`)

The provider is external: an execution is driven by the stream outcome it
returns, either normal completion after a list of chunks or an exception
raised after delivering some chunks.  Each chunk's
`choices[0]?.delta?.content` is an optional string.  The route relays each
non-empty chunk content as an SSE event while accumulating it, then either
persists a document and completes the workflow, or marks the workflow
`error` and emits a generic failure event. -/

/-- One newline-delimited SSE data event written by the execution routes. -/
inductive StreamEvent where
  | step (stepIndex : Nat)
  | content (text : String)
  | done (document : DocumentRow)
  | failure (message : String)
deriving Repr, DecidableEq

/-- Outcome of the provider's streaming call. -/
inductive ProviderStream where
  | success (chunks : List (Option String))
  | failureAfter (chunks : List (Option String))
deriving Repr, DecidableEq

/-- One iteration of the relay loop: `const content = ... || ""`, and when
non-empty, append to the accumulator and write a content event. -/
def relayStep (acc : String × List StreamEvent) (chunk : Option String) :
    String × List StreamEvent :=
  let content := chunk.getD ""
  if content = "" then acc
  else (acc.1 ++ content, acc.2 ++ [StreamEvent.content content])

/-- Recursive form of the relay loop (proved equal to the fold). -/
def relay : List (Option String) → String × List StreamEvent
  | [] => ("", [])
  | chunk :: rest =>
    let content := chunk.getD ""
    if content = "" then relay rest
    else (content ++ (relay rest).1, StreamEvent.content content :: (relay rest).2)

/-- Model of the execute route.  `today` stands for the formatted current
date used in the document title.  A missing workflow is the 404 path; on the
SSE path the route returns the final store and the ordered list of events
written to the response. -/
def executeWorkflowRoute (s : StoreState) (id : Nat) (stream : ProviderStream)
    (today : String) : Except String (StoreState × List StreamEvent) :=
  match getWorkflow s id with
  | none => Except.error "Workflow not found"
  | some workflow =>
    let constitution := getConstitution s
    let contextVariables := workflow.contextVariables
    let s1 := (updateWorkflow s id { status := some "in_progress" }).1
    let agentType := workflow.currentAgent.getD AgentType.analyst
    let _prompt := getPromptForAgent agentType contextVariables (some constitution)
    let outputType := getOutputTypeForAgent agentType
    match stream with
    | ProviderStream.success chunks =>
      let relayed := chunks.foldl relayStep ("", [])
      let created := createDocument s1
        { workflowId := some id
          agentType := agentType
          title := outputType ++ " - " ++ today
          content := relayed.1
          outputType := outputType }
      let s3 := (updateWorkflow created.1 id { status := some "completed" }).1
      Except.ok (s3, StreamEvent.step 0 :: relayed.2 ++ [StreamEvent.done created.2])
    | ProviderStream.failureAfter chunks =>
      let relayed := chunks.foldl relayStep ("", [])
      let s2 := (updateWorkflow s1 id { status := some "error" }).1
      Except.ok (s2,
        StreamEvent.step 0 :: relayed.2 ++ [StreamEvent.failure "Failed to generate content"])

/-- The content payload of an event, if it is a content event. -/
def contentText : StreamEvent → Option String
  | StreamEvent.content t => some t
  | _ => none

/-- The insert payload the execute route passes to `createDocument` on
normal stream completion, as a function of the workflow row, the date and
the accumulated body. -/
def executeDocData (id : Nat) (w : WorkflowRow) (today : String) (body : String) :
    InsertDocument :=
  { workflowId := some id
    agentType := w.currentAgent.getD AgentType.analyst
    title := getOutputTypeForAgent (w.currentAgent.getD AgentType.analyst) ++ " - " ++ today
    content := body
    outputType := getOutputTypeForAgent (w.currentAgent.getD AgentType.analyst) }

/-- A one-workflow store used to exercise the execution route on concrete
data. -/
def execStore : StoreState :=
  (createWorkflow initialStore { name := "W", currentAgent := some AgentType.analyst }).1

/-- The workflow row held by `execStore`. -/
def execRow : WorkflowRow :=
  { id := 1, name := "W", currentAgent := some AgentType.analyst }

/-- A concrete chunk sequence: two non-empty contents, a chunk with no
delta content, and an empty string (both of the latter are dropped by the
`|| ""` / truthiness test). -/
def execChunks : List (Option String) := [some "Hello ", none, some "", some "world"]

/-! ## JSON values and a model of `JSON.parse`

The validation route parses the provider's structured response with
`JSON.parse(content || "{}")`; a throw from `JSON.parse` is caught by the
route's catch-all, which answers with the generic 500 error.  `JSON.parse`
is modelled by a recursive-descent parser of the JSON grammar returning
`none` exactly where `JSON.parse` throws. -/

/-- A parsed JSON value.  Number lexemes are kept verbatim; their numeric
interpretation plays no role in the claims. -/
inductive Json where
  | null
  | bool (b : Bool)
  | num (lexeme : String)
  | str (s : String)
  | arr (elems : List Json)
  | obj (members : List (String × Json))
deriving Repr

/-- The `{` character. -/
def lbraceC : Char := Char.ofNat 123

/-- The `}` character. -/
def rbraceC : Char := Char.ofNat 125

/-- The `[` character. -/
def lbracketC : Char := Char.ofNat 91

/-- The `]` character. -/
def rbracketC : Char := Char.ofNat 93

/-- The double-quote character. -/
def dquoteC : Char := Char.ofNat 34

/-- The backslash character. -/
def backslashC : Char := Char.ofNat 92

/-- The comma character. -/
def commaC : Char := Char.ofNat 44

/-- The colon character. -/
def colonC : Char := Char.ofNat 58

/-- JSON insignificant whitespace. -/
def isJsonWs (c : Char) : Bool :=
  c == Char.ofNat 32 || c == Char.ofNat 9 || c == Char.ofNat 10 || c == Char.ofNat 13

/-- Drop leading JSON whitespace. -/
def skipWs : List Char → List Char
  | [] => []
  | c :: rest => if isJsonWs c then skipWs rest else c :: rest

/-- Value of a hexadecimal digit. -/
def hexVal (c : Char) : Option Nat :=
  if c.isDigit then some (c.toNat - 48)
  else if 97 ≤ c.toNat && c.toNat ≤ 102 then some (c.toNat - 87)
  else if 65 ≤ c.toNat && c.toNat ≤ 70 then some (c.toNat - 55)
  else none

/-- Parse the body of a JSON string after the opening quote, returning the
decoded characters and the remainder after the closing quote. -/
def parseStringBody : Nat → List Char → Option (List Char × List Char)
  | 0, _ => none
  | _ + 1, [] => none
  | fuel + 1, c :: rest =>
    if c == dquoteC then some ([], rest)
    else if c == backslashC then
      match rest with
      | [] => none
      | e :: rest2 =>
        let simpleEsc : Option Char :=
          if e == dquoteC then some dquoteC
          else if e == backslashC then some backslashC
          else if e == Char.ofNat 47 then some (Char.ofNat 47)
          else if e == 'b' then some (Char.ofNat 8)
          else if e == 'f' then some (Char.ofNat 12)
          else if e == 'n' then some (Char.ofNat 10)
          else if e == 'r' then some (Char.ofNat 13)
          else if e == 't' then some (Char.ofNat 9)
          else none
        match simpleEsc with
        | some ch => (parseStringBody fuel rest2).map (fun p => (ch :: p.1, p.2))
        | none =>
          if e == 'u' then
            match rest2 with
            | h1 :: h2 :: h3 :: h4 :: rest3 =>
              match hexVal h1, hexVal h2, hexVal h3, hexVal h4 with
              | some a, some b, some c2, some d =>
                (parseStringBody fuel rest3).map
                  (fun p => (Char.ofNat (((a * 16 + b) * 16 + c2) * 16 + d) :: p.1, p.2))
              | _, _, _, _ => none
            | _ => none
          else none
    else if c.toNat < 32 then none
    else (parseStringBody fuel rest).map (fun p => (c :: p.1, p.2))

/-- Longest prefix of decimal digits. -/
def spanDigits : List Char → List Char × List Char
  | [] => ([], [])
  | c :: rest =>
    if c.isDigit then
      let (ds, r) := spanDigits rest
      (c :: ds, r)
    else ([], c :: rest)

/-- Parse the integer part of a JSON number (`0` or a nonzero digit followed
by digits). -/
def parseIntPart : List Char → Option (List Char × List Char)
  | [] => none
  | c :: rest =>
    if c == '0' then some ([c], rest)
    else if c.isDigit then
      let (ds, r) := spanDigits rest
      some (c :: ds, r)
    else none

/-- Parse a JSON number, returning its lexeme and the remainder. -/
def parseNumber (s : List Char) : Option (List Char × List Char) :=
  let (negPart, s1) :=
    match s with
    | c :: rest => if c == '-' then ([c], rest) else (([] : List Char), s)
    | [] => ([], [])
  match parseIntPart s1 with
  | none => none
  | some (ip, s2) =>
    let (fp, s3) :=
      match s2 with
      | c :: rest =>
        if c == '.' then
          let (ds, r) := spanDigits rest
          if ds.isEmpty then (([] : List Char), s2) else (c :: ds, r)
        else ([], s2)
      | [] => ([], [])
    let (ep, s4) :=
      match s3 with
      | c :: rest =>
        if c == 'e' || c == 'E' then
          let (sgn, rest2) :=
            match rest with
            | c2 :: r2 => if c2 == '+' || c2 == '-' then ([c2], r2) else (([] : List Char), rest)
            | [] => ([], rest)
          let (ds, r) := spanDigits rest2
          if ds.isEmpty then (([] : List Char), s3) else (c :: sgn ++ ds, r)
        else ([], s3)
      | [] => ([], [])
    some (negPart ++ ip ++ fp ++ ep, s4)

mutual

/-- Parse one JSON value (after optional leading whitespace). -/
def parseValue : Nat → List Char → Option (Json × List Char)
  | 0, _ => none
  | fuel + 1, s =>
    match skipWs s with
    | [] => none
    | 'n' :: 'u' :: 'l' :: 'l' :: rest => some (Json.null, rest)
    | 't' :: 'r' :: 'u' :: 'e' :: rest => some (Json.bool true, rest)
    | 'f' :: 'a' :: 'l' :: 's' :: 'e' :: rest => some (Json.bool false, rest)
    | c :: rest =>
      if c == dquoteC then
        (parseStringBody (rest.length + 1) rest).map (fun p => (Json.str ⟨p.1⟩, p.2))
      else if c == lbracketC then
        match skipWs rest with
        | c2 :: r2 =>
          if c2 == rbracketC then some (Json.arr [], r2)
          else (parseArrayItems fuel rest).map (fun p => (Json.arr p.1, p.2))
        | [] => none
      else if c == lbraceC then
        match skipWs rest with
        | c2 :: r2 =>
          if c2 == rbraceC then some (Json.obj [], r2)
          else (parseObjectItems fuel rest).map (fun p => (Json.obj p.1, p.2))
        | [] => none
      else
        (parseNumber (c :: rest)).map (fun p => (Json.num ⟨p.1⟩, p.2))

/-- Parse the comma-separated items of a non-empty JSON array, up to and
including the closing bracket. -/
def parseArrayItems : Nat → List Char → Option (List Json × List Char)
  | 0, _ => none
  | fuel + 1, s =>
    match parseValue fuel s with
    | none => none
    | some (v, r) =>
      match skipWs r with
      | c :: r2 =>
        if c == commaC then (parseArrayItems fuel r2).map (fun p => (v :: p.1, p.2))
        else if c == rbracketC then some ([v], r2)
        else none
      | [] => none

/-- Parse the comma-separated members of a non-empty JSON object, up to and
including the closing brace. -/
def parseObjectItems : Nat → List Char → Option (List (String × Json) × List Char)
  | 0, _ => none
  | fuel + 1, s =>
    match skipWs s with
    | c :: r =>
      if c == dquoteC then
        match parseStringBody (r.length + 1) r with
        | none => none
        | some (key, r2) =>
          match skipWs r2 with
          | c2 :: r3 =>
            if c2 == colonC then
              match parseValue fuel r3 with
              | none => none
              | some (v, r4) =>
                match skipWs r4 with
                | c3 :: r5 =>
                  if c3 == commaC then
                    (parseObjectItems fuel r5).map (fun p => ((⟨key⟩, v) :: p.1, p.2))
                  else if c3 == rbraceC then some ([(⟨key⟩, v)], r5)
                  else none
                | [] => none
            else none
          | [] => none
      else none
    | [] => none

end

/-- Model of `JSON.parse`: `some` on a well-formed JSON document, `none`
where `JSON.parse` throws. -/
def jsonParse (s : String) : Option Json :=
  match parseValue (s.data.length + 1) s.data with
  | some (v, rest) => if (skipWs rest).isEmpty then some v else none
  | none => none

/-! ## The validation route (`POST /api/documents/:id/validate`) -/

/-- The response produced by the validation route. -/
inductive ValidateOutcome where
  | badRequest (message : String)
  | notFound (message : String)
  | ok (result : Json)
  | serverError (message : String)
deriving Repr

/-- Model of the validation route after the id has been parsed: look the
document up (404 when absent), send the review prompt to the provider, then
run `JSON.parse(response.choices[0]?.message?.content || "{}")`.  The
provider's reply content is the external input `providerContent`; a parse
throw reaches the route's catch-all and answers 500. -/
def validateDocumentRoute (doc? : Option DocumentRow) (providerContent : Option String) :
    ValidateOutcome :=
  match doc? with
  | none => ValidateOutcome.notFound "Document not found"
  | some _ =>
    let raw :=
      match providerContent with
      | some c => if c = "" then "\x7b\x7d" else c
      | none => "\x7b\x7d"
    match jsonParse raw with
    | some v => ValidateOutcome.ok v
    | none => ValidateOutcome.serverError "Failed to validate document"

/-! ## Specification-side definitions used by the theorems -/

/-- Concatenation of a list of strings, in order. -/
def concatStrings : List String → String
  | [] => ""
  | t :: ts => t ++ concatStrings ts

/-- Well-formedness of a store: serial document ids are below the document
counter (so a fresh id is genuinely fresh), version rows reference already
allocated document ids, and document ids are pairwise distinct.  These hold
for every state the database can be in, since serial primary keys never
repeat and foreign keys reference existing rows. -/
def wfStore (s : StoreState) : Prop :=
  (∀ d ∈ s.documents, d.id < s.nextDocumentId) ∧
  (∀ v ∈ s.documentVersions, v.documentId < s.nextDocumentId) ∧
  (s.documents.map (fun d => d.id)).Nodup

/-- The version rows of one document. -/
def versionsOf (s : StoreState) (id : Nat) : List DocumentVersionRow :=
  s.documentVersions.filter (fun v => v.documentId == id)

/-- The highest version number among a list of version rows (0 when there
are none). -/
def maxVersionOf (l : List DocumentVersionRow) : Nat :=
  (l.map (fun v => v.version)).foldr max 0

/-- The spec's invariant: every document's `version` is one greater than
the highest version among its version rows, hence 1 when it has none. -/
def versionInvariant (s : StoreState) : Prop :=
  ∀ d ∈ s.documents, d.version = maxVersionOf (versionsOf s d.id) + 1

/-- One mutating store operation, as invoked by the HTTP routes
(`createDocumentVersion` occurs only inside `updateDocument`). -/
inductive StoreStep : StoreState → StoreState → Prop where
  | createWorkflow (s : StoreState) (data : InsertWorkflow) :
      StoreStep s (createWorkflow s data).1
  | updateWorkflow (s : StoreState) (id : Nat) (u : WorkflowUpdates) :
      StoreStep s (updateWorkflow s id u).1
  | deleteWorkflow (s : StoreState) (id : Nat) : StoreStep s (deleteWorkflow s id)
  | duplicateWorkflow (s : StoreState) (id : Nat) : StoreStep s (duplicateWorkflow s id).1
  | createDocument (s : StoreState) (data : InsertDocument) :
      StoreStep s (createDocument s data).1
  | updateDocument (s : StoreState) (id : Nat) (u : DocumentUpdates) :
      StoreStep s (updateDocument s id u).1
  | deleteDocument (s : StoreState) (id : Nat) : StoreStep s (deleteDocument s id)
  | setConstitution (s : StoreState) (c : String) : StoreStep s (setConstitution s c)

/-- Store states reachable from the empty database through the mutating
operations. -/
inductive Reachable : StoreState → Prop where
  | init : Reachable initialStore
  | step {s t : StoreState} : Reachable s → StoreStep s t → Reachable t

/-- The expected (version, content) history, in ascending version order,
produced by successive content edits: one row per edit, carrying the
version and content live immediately before that edit. -/
def ascHistory : Nat → String → List String → List (Nat × String)
  | _, _, [] => []
  | v, cur, c :: cs => (v, cur) :: ascHistory (v + 1) c cs

/-- Apply a sequence of content-only edits to one document. -/
def applyContentUpdates (s : StoreState) (id : Nat) : List String → StoreState
  | [] => s
  | c :: cs => applyContentUpdates (updateDocument s id { content := some c }).1 id cs

/-- The (version, content) projection of a version row. -/
def pairVC (v : DocumentVersionRow) : Nat × String := (v.version, v.content)

/-- A concrete one-workflow store used to exercise the delete cascade: one
document owned by workflow 1, carrying one version row. -/
def cascadeDoc : DocumentRow :=
  { id := 1
    workflowId := some 1
    agentType := AgentType.analyst
    title := "T"
    content := "v2"
    outputType := "O"
    version := 2 }

/-- The store holding `cascadeDoc` under workflow 1. -/
def cascadeStore : StoreState :=
  { workflows := [{ id := 1, name := "W", status := "draft" }]
    documents := [cascadeDoc]
    documentVersions := [{ id := 1, documentId := 1, version := 1, content := "v1" }]
    nextWorkflowId := 2
    nextDocumentId := 2
    nextVersionId := 2 }

/-! ## Lemmas: the global literal replacement

`replaceAllL` is characterised through `splitOnL`: the input decomposes into
pattern-free parts separated by pattern occurrences, and the output is the
same parts rejoined with the replacement. -/

theorem splitOnL_nil (pat : List Char) : splitOnL pat [] = [[]] := by
  simp only [splitOnL]

theorem splitOnL_cons_pos {pat : List Char} {c : Char} {rest : List Char}
    (h : (pat.isPrefixOf (c :: rest) && !pat.isEmpty) = true) :
    splitOnL pat (c :: rest) = [] :: splitOnL pat (List.drop (pat.length - 1) rest) := by
  simp only [splitOnL]
  rw [if_pos h]

theorem splitOnL_cons_neg {pat : List Char} {c : Char} {rest : List Char} {p : List Char}
    {ps : List (List Char)} (h : ¬ (pat.isPrefixOf (c :: rest) && !pat.isEmpty) = true)
    (hps : splitOnL pat rest = p :: ps) :
    splitOnL pat (c :: rest) = (c :: p) :: ps := by
  simp only [splitOnL]
  rw [if_neg h, hps]

theorem replaceAllGo_fuel (pat repl : List Char) :
    ∀ (n : Nat) (s : List Char), s.length ≤ n →
      replaceAllGo pat repl n s = replaceAllGo pat repl s.length s := by
  intro n
  induction n using Nat.strong_induction_on with
  | _ n ih =>
    intro s hs
    cases n with
    | zero =>
      have hnil : s = [] := List.length_eq_zero.mp (Nat.le_zero.mp hs)
      subst hnil
      rfl
    | succ m =>
      cases s with
      | nil => rfl
      | cons c rest =>
        have hrest : rest.length ≤ m := by
          simp only [List.length_cons] at hs
          omega
        show (if pat.isPrefixOf (c :: rest) && !pat.isEmpty
            then repl ++ replaceAllGo pat repl m (List.drop (pat.length - 1) rest)
            else c :: replaceAllGo pat repl m rest)
          = (if pat.isPrefixOf (c :: rest) && !pat.isEmpty
            then repl ++ replaceAllGo pat repl rest.length (List.drop (pat.length - 1) rest)
            else c :: replaceAllGo pat repl rest.length rest)
        have hdlen : (List.drop (pat.length - 1) rest).length ≤ rest.length := by
          simp [List.length_drop]
        by_cases hb : (pat.isPrefixOf (c :: rest) && !pat.isEmpty) = true
        · rw [if_pos hb, if_pos hb,
              ih m (Nat.lt_succ_self m) _ (le_trans hdlen hrest),
              ih rest.length (Nat.lt_succ_of_le hrest) _ hdlen]
        · rw [if_neg hb, if_neg hb,
              ih m (Nat.lt_succ_self m) rest hrest,
              ih rest.length (Nat.lt_succ_of_le hrest) rest (le_refl _)]

theorem replaceAllL_nil (pat repl : List Char) : replaceAllL pat repl [] = [] := rfl

theorem replaceAllL_cons_pos {pat : List Char} {c : Char} {rest : List Char} (repl : List Char)
    (h : (pat.isPrefixOf (c :: rest) && !pat.isEmpty) = true) :
    replaceAllL pat repl (c :: rest)
      = repl ++ replaceAllL pat repl (List.drop (pat.length - 1) rest) := by
  show (if pat.isPrefixOf (c :: rest) && !pat.isEmpty
      then repl ++ replaceAllGo pat repl rest.length (List.drop (pat.length - 1) rest)
      else c :: replaceAllGo pat repl rest.length rest)
    = repl ++ replaceAllL pat repl (List.drop (pat.length - 1) rest)
  rw [if_pos h, replaceAllGo_fuel pat repl rest.length _ (by simp [List.length_drop])]
  rfl

theorem replaceAllL_cons_neg {pat : List Char} {c : Char} {rest : List Char} (repl : List Char)
    (h : ¬ (pat.isPrefixOf (c :: rest) && !pat.isEmpty) = true) :
    replaceAllL pat repl (c :: rest) = c :: replaceAllL pat repl rest := by
  show (if pat.isPrefixOf (c :: rest) && !pat.isEmpty
      then repl ++ replaceAllGo pat repl rest.length (List.drop (pat.length - 1) rest)
      else c :: replaceAllGo pat repl rest.length rest)
    = c :: replaceAllL pat repl rest
  rw [if_neg h]
  rfl

theorem splitOnL_ne_nil (pat s : List Char) : splitOnL pat s ≠ [] := by
  induction s using splitOnL.induct pat with
  | case1 => simp [splitOnL_nil]
  | case2 c rest h ih => simp [splitOnL_cons_pos h]
  | case3 c rest h hnil ih => exact absurd hnil ih
  | case4 c rest h p ps hps ih => simp [splitOnL_cons_neg h hps]

theorem intercalateL_pair (sep p q : List Char) (ps : List (List Char)) :
    intercalateL sep (p :: q :: ps) = p ++ sep ++ intercalateL sep (q :: ps) := rfl

theorem replaceAllL_eq_intercalateL (pat repl s : List Char) :
    replaceAllL pat repl s = intercalateL repl (splitOnL pat s) := by
  induction s using splitOnL.induct pat with
  | case1 => simp [replaceAllL_nil, splitOnL_nil, intercalateL]
  | case2 c rest h ih =>
    obtain ⟨p, ps, hps⟩ :=
      List.exists_cons_of_ne_nil (splitOnL_ne_nil pat (List.drop (pat.length - 1) rest))
    rw [hps] at ih
    rw [replaceAllL_cons_pos repl h, splitOnL_cons_pos h, hps, ih, intercalateL_pair]
    simp
  | case3 c rest h hnil ih => exact absurd hnil (splitOnL_ne_nil pat rest)
  | case4 c rest h p ps hps ih =>
    rw [hps] at ih
    rw [replaceAllL_cons_neg repl h, splitOnL_cons_neg h hps, ih]
    cases ps with
    | nil => simp [intercalateL]
    | cons q qs => simp [intercalateL_pair]

theorem intercalateL_splitOnL (pat s : List Char) (hpat : pat ≠ []) :
    intercalateL pat (splitOnL pat s) = s := by
  induction s using splitOnL.induct pat with
  | case1 => simp [splitOnL_nil, intercalateL]
  | case2 c rest h ih =>
    have hpre : pat.isPrefixOf (c :: rest) = true := by
      simp only [Bool.and_eq_true] at h
      exact h.1
    obtain ⟨t, ht⟩ := List.isPrefixOf_iff_prefix.mp hpre
    obtain ⟨p, ps, hps⟩ :=
      List.exists_cons_of_ne_nil (splitOnL_ne_nil pat (List.drop (pat.length - 1) rest))
    rw [hps] at ih
    have hlen : pat.length - 1 + 1 = pat.length :=
      Nat.succ_pred_eq_of_pos (List.length_pos.mpr hpat)
    have hdrop : List.drop (pat.length - 1) rest = t := by
      calc List.drop (pat.length - 1) rest
          = List.drop (pat.length - 1 + 1) (c :: rest) := List.drop_succ_cons.symm
        _ = List.drop pat.length (c :: rest) := by rw [hlen]
        _ = t := by rw [← ht, List.drop_left]
    rw [splitOnL_cons_pos h, hps, intercalateL_pair, ih, hdrop]
    simpa using ht
  | case3 c rest h hnil ih => exact absurd hnil (splitOnL_ne_nil pat rest)
  | case4 c rest h p ps hps ih =>
    rw [hps] at ih
    rw [splitOnL_cons_neg h hps]
    cases ps with
    | nil =>
      simp only [intercalateL] at *
      rw [ih]
    | cons q qs =>
      rw [intercalateL_pair] at ih ⊢
      simp only [List.cons_append, List.append_assoc] at ih ⊢
      rw [ih]

theorem splitOnL_head_prefix (pat s : List Char) :
    ∃ p ps, splitOnL pat s = p :: ps ∧ p <+: s := by
  induction s using splitOnL.induct pat with
  | case1 => exact ⟨[], [], splitOnL_nil pat, List.nil_prefix⟩
  | case2 c rest h ih =>
    exact ⟨[], splitOnL pat (List.drop (pat.length - 1) rest),
      splitOnL_cons_pos h, List.nil_prefix⟩
  | case3 c rest h hnil ih => exact absurd hnil (splitOnL_ne_nil pat rest)
  | case4 c rest h p ps hps ih =>
    obtain ⟨p2, ps2, hps2, hpre⟩ := ih
    have heq : p :: ps = p2 :: ps2 := hps.symm.trans hps2
    injection heq with heq1 heq2
    subst heq1
    exact ⟨c :: p, ps, splitOnL_cons_neg h hps,
      (List.cons_prefix_cons).mpr ⟨rfl, hpre⟩⟩

theorem splitOnL_parts_no_pat (pat s : List Char) (hpat : pat ≠ []) :
    ∀ p ∈ splitOnL pat s, containsL pat p = false := by
  have hne : pat.isEmpty = false := by
    cases pat with
    | nil => exact absurd rfl hpat
    | cons a as => rfl
  induction s using splitOnL.induct pat with
  | case1 =>
    intro p hp
    rw [splitOnL_nil] at hp
    simp only [List.mem_singleton] at hp
    subst hp
    simp [containsL, hne]
  | case2 c rest h ih =>
    intro p hp
    rw [splitOnL_cons_pos h] at hp
    simp only [List.mem_cons] at hp
    rcases hp with rfl | hp
    · simp [containsL, hne]
    · exact ih p hp
  | case3 c rest h hnil ih => exact absurd hnil (splitOnL_ne_nil pat rest)
  | case4 c rest h p ps hps ih =>
    intro q hq
    rw [splitOnL_cons_neg h hps] at hq
    simp only [List.mem_cons] at hq
    have hpreF : pat.isPrefixOf (c :: rest) = false := by
      cases hb : pat.isPrefixOf (c :: rest) with
      | false => rfl
      | true => exact absurd (by rw [hb, hne]; rfl) h
    rcases hq with rfl | hq
    · have htail : containsL pat p = false := ih p (by rw [hps]; exact List.mem_cons_self _ _)
      have hhead : pat.isPrefixOf (c :: p) = false := by
        cases hb : pat.isPrefixOf (c :: p) with
        | false => rfl
        | true =>
          exfalso
          have hp1 : pat <+: (c :: p) := List.isPrefixOf_iff_prefix.mp hb
          obtain ⟨p2, ps2, hps2, hpre⟩ := splitOnL_head_prefix pat rest
          have heq : p :: ps = p2 :: ps2 := hps.symm.trans hps2
          injection heq with heq1 heq2
          subst heq1
          have hp2 : pat <+: (c :: rest) :=
            hp1.trans ((List.cons_prefix_cons).mpr ⟨rfl, hpre⟩)
          rw [List.isPrefixOf_iff_prefix.mpr hp2] at hpreF
          exact Bool.noConfusion hpreF
      simp [containsL, hhead, htail]
    · exact ih q (by rw [hps]; exact List.mem_cons_of_mem _ hq)

theorem isPrefixOf_append_self (pat x : List Char) : pat.isPrefixOf (pat ++ x) = true := by
  induction pat with
  | nil => simp [List.isPrefixOf]
  | cons a as ih =>
    show (a == a && as.isPrefixOf (as ++ x)) = true
    rw [ih]
    simp

theorem containsL_append_left (pat s : List Char) (h : containsL pat s = true) :
    ∀ a : List Char, containsL pat (a ++ s) = true := by
  intro a
  induction a with
  | nil => simpa using h
  | cons c cs ih =>
    show (pat.isPrefixOf (c :: (cs ++ s)) || containsL pat (cs ++ s)) = true
    rw [ih]
    simp

theorem containsL_middle (pat a b : List Char) (hpat : pat ≠ []) :
    containsL pat (a ++ (pat ++ b)) = true := by
  apply containsL_append_left
  cases pat with
  | nil => exact absurd rfl hpat
  | cons p ps =>
    show ((p :: ps).isPrefixOf (p :: (ps ++ b)) || containsL (p :: ps) (ps ++ b)) = true
    rw [show (p :: (ps ++ b)) = (p :: ps) ++ b from rfl, isPrefixOf_append_self]
    simp

theorem splitOnL_two_parts (pat s : List Char) (hpat : pat ≠ [])
    (h : containsL pat s = true) : ∃ p q ps, splitOnL pat s = p :: q :: ps := by
  have hne : pat.isEmpty = false := by
    cases pat with
    | nil => exact absurd rfl hpat
    | cons a as => rfl
  revert h
  induction s using splitOnL.induct pat with
  | case1 =>
    intro h
    simp [containsL, hne] at h
  | case2 c rest hb ih =>
    intro h
    obtain ⟨p, ps, hps⟩ :=
      List.exists_cons_of_ne_nil (splitOnL_ne_nil pat (List.drop (pat.length - 1) rest))
    exact ⟨[], p, ps, by rw [splitOnL_cons_pos hb, hps]⟩
  | case3 c rest hb hnil ih => exact absurd hnil (splitOnL_ne_nil pat rest)
  | case4 c rest hb p ps hps ih =>
    intro h
    have hpre : pat.isPrefixOf (c :: rest) = false := by
      cases hx : pat.isPrefixOf (c :: rest) with
      | false => rfl
      | true => exact absurd (by rw [hx, hne]; rfl) hb
    have hrest : containsL pat rest = true := by
      have h2 : (pat.isPrefixOf (c :: rest) || containsL pat rest) = true := h
      rw [hpre] at h2
      simpa using h2
    obtain ⟨p1, q1, ps1, hps1⟩ := ih hrest
    have heq : p :: ps = p1 :: q1 :: ps1 := hps.symm.trans hps1
    injection heq with heq1 heq2
    subst heq1
    subst heq2
    exact ⟨c :: p, q1, ps1, splitOnL_cons_neg hb hps⟩

theorem sentinelStr_data_ne_nil (key : String) : (sentinelStr key).data ≠ [] := by
  unfold sentinelStr
  simp [String.data_append]

theorem strContains_replaceAllStr (s pat repl x : String) :
    strContains (replaceAllStr s pat repl) x
      = containsL x.data (replaceAllL pat.data repl.data s.data) := rfl

theorem contains_repl_after_replaceAll (T pat repl : String)
    (hpat : pat.data ≠ []) (hrepl : repl.data ≠ [])
    (hcont : containsL pat.data T.data = true) :
    containsL repl.data (replaceAllL pat.data repl.data T.data) = true := by
  obtain ⟨p, q, ps, hps⟩ := splitOnL_two_parts pat.data T.data hpat hcont
  rw [replaceAllL_eq_intercalateL, hps, intercalateL_pair, List.append_assoc]
  exact containsL_middle _ _ _ hrepl

theorem strIntercalate_mk_parts (sep : String) (parts : List (List Char)) :
    strIntercalate sep (parts.map String.mk) = ⟨intercalateL sep.data parts⟩ := by
  unfold strIntercalate
  have hmap : (parts.map String.mk).map String.data = parts := by
    rw [List.map_map]
    show List.map id parts = parts
    exact List.map_id parts
  rw [hmap]

theorem replaceAllStr_eq_intercalate (s pat repl : String) :
    replaceAllStr s pat repl = strIntercalate repl (strSplitOn s pat) := by
  unfold replaceAllStr strSplitOn
  rw [strIntercalate_mk_parts, replaceAllL_eq_intercalateL]

theorem strIntercalate_strSplitOn (s pat : String) (hpat : pat.data ≠ []) :
    strIntercalate pat (strSplitOn s pat) = s := by
  unfold strSplitOn
  rw [strIntercalate_mk_parts, intercalateL_splitOnL _ _ hpat]

theorem placeholderStr_data_ne_nil (key : String) : (placeholderStr key).data ≠ [] := by
  unfold placeholderStr
  simp [String.data_append]

theorem strSplitOn_parts_no_pat (s pat : String) (hpat : pat.data ≠ []) :
    (strSplitOn s pat).all (fun part => !(strContains part pat)) = true := by
  unfold strSplitOn
  rw [List.all_eq_true]
  intro part hpart
  obtain ⟨l, hl, rfl⟩ := List.mem_map.mp hpart
  have := splitOnL_parts_no_pat pat.data s.data hpat l hl
  unfold strContains
  simp [this]

/-! ## Lemmas: the relay loop -/

theorem foldl_relayStep_eq (chunks : List (Option String)) (t : String)
    (es : List StreamEvent) :
    chunks.foldl relayStep (t, es) = (t ++ (relay chunks).1, es ++ (relay chunks).2) := by
  induction chunks generalizing t es with
  | nil => simp [relay]
  | cons chunk rest ih =>
    by_cases hc : chunk.getD "" = ""
    · simp [relayStep, relay, hc, ih]
    · simp [relayStep, relay, hc, ih, String.append_assoc]

theorem relay_concat (chunks : List (Option String)) :
    concatStrings ((relay chunks).2.filterMap contentText) = (relay chunks).1 := by
  induction chunks with
  | nil => simp [relay, concatStrings]
  | cons chunk rest ih =>
    by_cases hc : chunk.getD "" = ""
    · simpa [relay, hc] using ih
    · simp [relay, hc, contentText, concatStrings, ih]

theorem relay_events_are_content (chunks : List (Option String)) :
    ∀ e ∈ (relay chunks).2, ∃ t, e = StreamEvent.content t := by
  induction chunks with
  | nil => simp [relay]
  | cons chunk rest ih =>
    by_cases hc : chunk.getD "" = ""
    · simpa [relay, hc] using ih
    · intro e he
      simp [relay, hc] at he
      rcases he with rfl | he
      · exact ⟨chunk.getD "", rfl⟩
      · exact ih e he

/-! ## Lemmas: the document store -/

theorem find?_map_comm {α : Type} (g : α → α) (p : α → Bool) (l : List α)
    (hg : ∀ a, p (g a) = p a) :
    (l.map g).find? p = (l.find? p).map g := by
  induction l with
  | nil => rfl
  | cons a l ih =>
    simp only [List.map_cons, List.find?_cons]
    rw [hg a]
    cases hp : p a with
    | true => rfl
    | false => exact ih

theorem applyWorkflowUpdates_id (u : WorkflowUpdates) (w : WorkflowRow) :
    (applyWorkflowUpdates u w).id = w.id := rfl

theorem applyDocumentUpdates_id (u : DocumentUpdates) (n : Nat) (d : DocumentRow) :
    (applyDocumentUpdates u n d).id = d.id := rfl

theorem getWorkflow_updateWorkflow (s : StoreState) (id wid : Nat) (u : WorkflowUpdates) :
    getWorkflow (updateWorkflow s id u).1 wid
      = (getWorkflow s wid).map (fun w => if w.id == id then applyWorkflowUpdates u w else w) := by
  unfold getWorkflow updateWorkflow
  exact find?_map_comm _ _ _ (fun w => by
    by_cases h : (w.id == id) = true <;> simp [h, applyWorkflowUpdates_id])

theorem wfStore_createWorkflow (s : StoreState) (data : InsertWorkflow) (h : wfStore s) :
    wfStore (createWorkflow s data).1 := h

theorem wfStore_updateWorkflow (s : StoreState) (id : Nat) (u : WorkflowUpdates)
    (h : wfStore s) : wfStore (updateWorkflow s id u).1 := h

theorem wfStore_setConstitution (s : StoreState) (c : String) (h : wfStore s) :
    wfStore (setConstitution s c) := h

theorem wfStore_duplicateWorkflow (s : StoreState) (id : Nat) (h : wfStore s) :
    wfStore (duplicateWorkflow s id).1 := by
  unfold duplicateWorkflow
  cases getWorkflow s id with
  | none => exact h
  | some original => exact h

theorem wfStore_deleteWorkflow (s : StoreState) (id : Nat) (h : wfStore s) :
    wfStore (deleteWorkflow s id) := by
  obtain ⟨h1, h2, h3⟩ := h
  refine ⟨?_, ?_, ?_⟩
  · intro d hd
    exact h1 d (List.mem_of_mem_filter hd)
  · intro v hv
    exact h2 v (List.mem_of_mem_filter hv)
  · exact List.Nodup.sublist (List.Sublist.map _ (List.filter_sublist _)) h3

theorem wfStore_deleteDocument (s : StoreState) (id : Nat) (h : wfStore s) :
    wfStore (deleteDocument s id) := by
  obtain ⟨h1, h2, h3⟩ := h
  refine ⟨?_, ?_, ?_⟩
  · intro d hd
    exact h1 d (List.mem_of_mem_filter hd)
  · intro v hv
    exact h2 v (List.mem_of_mem_filter hv)
  · exact List.Nodup.sublist (List.Sublist.map _ (List.filter_sublist _)) h3

theorem wfStore_createDocument (s : StoreState) (data : InsertDocument) (h : wfStore s) :
    wfStore (createDocument s data).1 := by
  obtain ⟨h1, h2, h3⟩ := h
  refine ⟨?_, ?_, ?_⟩
  · intro d hd
    rcases List.mem_append.mp hd with hd | hd
    · exact Nat.lt_succ_of_lt (h1 d hd)
    · rw [List.mem_singleton.mp hd]
      exact Nat.lt_succ_self _
  · intro v hv
    exact Nat.lt_succ_of_lt (h2 v hv)
  · show ((s.documents ++ [newDocument s data]).map (fun d => d.id)).Nodup
    rw [List.map_append]
    refine List.Nodup.append h3 (List.nodup_singleton _) ?_
    intro a ha hb
    obtain ⟨d, hd, rfl⟩ := List.mem_map.mp ha
    have hEq : d.id = s.nextDocumentId := List.mem_singleton.mp hb
    exact absurd (h1 d hd) (by rw [hEq]; exact lt_irrefl _)

theorem updateDocument_none (s : StoreState) (id : Nat) (u : DocumentUpdates)
    (hd : getDocument s id = none) : updateDocument s id u = (s, none) := by
  unfold updateDocument
  rw [hd]

theorem updateDocument_some (s : StoreState) (id : Nat) (u : DocumentUpdates)
    (current : DocumentRow) (hd : getDocument s id = some current) :
    (updateDocument s id u).1 = { s with
      documents := s.documents.map (fun d => if d.id == id then
        applyDocumentUpdates u ((if current.version = 0 then 1 else current.version) + 1) d
        else d)
      documentVersions := s.documentVersions ++
        [{ id := s.nextVersionId, documentId := id,
           version := if current.version = 0 then 1 else current.version,
           content := current.content }]
      nextVersionId := s.nextVersionId + 1 } := by
  unfold updateDocument
  rw [hd]
  rfl

theorem wfStore_updateDocument (s : StoreState) (id : Nat) (u : DocumentUpdates)
    (h : wfStore s) : wfStore (updateDocument s id u).1 := by
  cases hd : getDocument s id with
  | none => rw [(congrArg Prod.fst (updateDocument_none s id u hd) : _)]; exact h
  | some current =>
    rw [updateDocument_some s id u current hd]
    obtain ⟨h1, h2, h3⟩ := h
    have hcid : (current.id == id) = true :=
      @List.find?_some DocumentRow (fun d => d.id == id) current s.documents hd
    have hg : ∀ d : DocumentRow,
        ((fun d => if d.id == id then
            applyDocumentUpdates u ((if current.version = 0 then 1 else current.version) + 1) d
          else d) d).id = d.id := by
      intro d
      by_cases hb : (d.id == id) = true <;> simp [hb, applyDocumentUpdates_id]
    refine ⟨?_, ?_, ?_⟩
    · intro d hdm
      obtain ⟨d0, hd0, rfl⟩ := List.mem_map.mp hdm
      rw [hg d0]
      exact h1 d0 hd0
    · intro v hv
      rcases List.mem_append.mp hv with hv | hv
      · exact h2 v hv
      · rw [List.mem_singleton.mp hv]
        show id < s.nextDocumentId
        have hcur : current ∈ s.documents := List.mem_of_find?_eq_some hd
        have hidEq : current.id = id := by simpa using hcid
        rw [← hidEq]
        exact h1 current hcur
    · rw [List.map_map]
      have hcomp : s.documents.map ((fun d => d.id) ∘ (fun d =>
          if (d.id == id) = true then
            applyDocumentUpdates u ((if current.version = 0 then 1 else current.version) + 1) d
          else d)) = s.documents.map (fun d => d.id) :=
        List.map_congr_left (fun d _ => hg d)
      rw [hcomp]
      exact h3

theorem foldr_max_append (xs : List Nat) (y : Nat) :
    (xs ++ [y]).foldr max 0 = max (xs.foldr max 0) y := by
  induction xs with
  | nil => simp [Nat.max_comm]
  | cons x xs ih => simp only [List.cons_append, List.foldr_cons, ih, Nat.max_assoc]

theorem maxVersionOf_append_single (l : List DocumentVersionRow) (r : DocumentVersionRow) :
    maxVersionOf (l ++ [r]) = max (maxVersionOf l) r.version := by
  unfold maxVersionOf
  rw [List.map_append]
  exact foldr_max_append _ _

theorem filter_filter_of_imp (p q : DocumentVersionRow → Bool) :
    ∀ l : List DocumentVersionRow, (∀ v ∈ l, q v = true → p v = true) →
      (l.filter p).filter q = l.filter q := by
  intro l
  induction l with
  | nil => intro _; rfl
  | cons a l ih =>
    intro h
    have hrest := ih (fun v hv => h v (List.mem_cons_of_mem _ hv))
    by_cases hq : q a = true
    · have hp : p a = true := h a (List.mem_cons_self a l) hq
      simp [List.filter_cons, hp, hq, hrest]
    · by_cases hp : p a = true <;> simp [List.filter_cons, hp, hq, hrest]

theorem inv_createWorkflow (s : StoreState) (data : InsertWorkflow)
    (h : versionInvariant s) : versionInvariant (createWorkflow s data).1 := h

theorem inv_updateWorkflow (s : StoreState) (id : Nat) (u : WorkflowUpdates)
    (h : versionInvariant s) : versionInvariant (updateWorkflow s id u).1 := h

theorem inv_setConstitution (s : StoreState) (c : String)
    (h : versionInvariant s) : versionInvariant (setConstitution s c) := h

theorem inv_duplicateWorkflow (s : StoreState) (id : Nat)
    (h : versionInvariant s) : versionInvariant (duplicateWorkflow s id).1 := by
  unfold duplicateWorkflow
  cases getWorkflow s id with
  | none => exact h
  | some original => exact h

theorem inv_createDocument (s : StoreState) (data : InsertDocument) (hwf : wfStore s)
    (h : versionInvariant s) : versionInvariant (createDocument s data).1 := by
  intro d hd
  have hd2 : d ∈ s.documents ++ [newDocument s data] := hd
  rcases List.mem_append.mp hd2 with hmem | hmem
  · exact h d hmem
  · rw [List.mem_singleton.mp hmem]
    show (1 : Nat) = maxVersionOf (versionsOf s s.nextDocumentId) + 1
    have hempty : versionsOf s s.nextDocumentId = [] := by
      unfold versionsOf
      rw [List.filter_eq_nil_iff]
      intro v hv
      have := hwf.2.1 v hv
      simp only [beq_iff_eq]
      omega
    rw [hempty]
    rfl

theorem inv_deleteDocument (s : StoreState) (id : Nat)
    (h : versionInvariant s) : versionInvariant (deleteDocument s id) := by
  intro d hd
  have hd2 : d ∈ s.documents.filter (fun d0 => !(d0.id == id)) := hd
  have hmem := List.mem_of_mem_filter hd2
  have hne : (d.id == id) = false := by simpa using List.of_mem_filter hd2
  have hvers : versionsOf (deleteDocument s id) d.id = versionsOf s d.id := by
    show (s.documentVersions.filter (fun v => !(v.documentId == id))).filter
      (fun v => v.documentId == d.id) = versionsOf s d.id
    apply filter_filter_of_imp
    intro v hv hq
    have hvd : v.documentId = d.id := by simpa using hq
    simp [hvd, hne]
  rw [hvers]
  exact h d hmem

theorem inv_deleteWorkflow (s : StoreState) (wid : Nat) (hwf : wfStore s)
    (h : versionInvariant s) : versionInvariant (deleteWorkflow s wid) := by
  obtain ⟨h1, h2, h3⟩ := hwf
  intro d hd
  have hd2 : d ∈ s.documents.filter (fun d0 => !(d0.workflowId == some wid)) := hd
  have hmem := List.mem_of_mem_filter hd2
  have hsurv : (d.workflowId == some wid) = false := by simpa using List.of_mem_filter hd2
  have hnotdel : ((s.documents.filter (fun d0 => d0.workflowId == some wid)).map
      (fun d0 => d0.id)).contains d.id = false := by
    by_contra hc
    have hc2 : d.id ∈ (s.documents.filter (fun d0 => d0.workflowId == some wid)).map
        (fun d0 => d0.id) := by
      have := eq_true_of_ne_false hc
      simpa using this
    obtain ⟨d2, hd2mem, hid⟩ := List.mem_map.mp hc2
    have hd2f := List.mem_of_mem_filter hd2mem
    have hd2w : (d2.workflowId == some wid) = true :=
      @List.of_mem_filter DocumentRow (fun d0 => d0.workflowId == some wid) d2 s.documents hd2mem
    have hEq : d2 = d := List.inj_on_of_nodup_map h3 hd2f hmem hid
    rw [hEq] at hd2w
    rw [hd2w] at hsurv
    exact Bool.noConfusion hsurv
  have hvers : versionsOf (deleteWorkflow s wid) d.id = versionsOf s d.id := by
    show (s.documentVersions.filter (fun v =>
        !(((s.documents.filter (fun d0 => d0.workflowId == some wid)).map
          (fun d0 => d0.id)).contains v.documentId))).filter
      (fun v => v.documentId == d.id) = versionsOf s d.id
    apply filter_filter_of_imp
    intro v hv hq
    have hvd : v.documentId = d.id := by simpa using hq
    rw [hvd, hnotdel]
    rfl
  rw [hvers]
  exact h d hmem

theorem inv_updateDocument (s : StoreState) (id : Nat) (u : DocumentUpdates) (hwf : wfStore s)
    (h : versionInvariant s) : versionInvariant (updateDocument s id u).1 := by
  cases hd : getDocument s id with
  | none =>
    rw [(congrArg Prod.fst (updateDocument_none s id u hd) : (updateDocument s id u).1 = s)]
    exact h
  | some current =>
    obtain ⟨h1, h2, h3⟩ := hwf
    have hcur : current ∈ s.documents := List.mem_of_find?_eq_some hd
    have hcid : (current.id == id) = true :=
      @List.find?_some DocumentRow (fun d => d.id == id) current s.documents hd
    have hcideq : current.id = id := by simpa using hcid
    have hver : current.version = maxVersionOf (versionsOf s current.id) + 1 := h current hcur
    have hvpos : current.version ≠ 0 := by rw [hver]; exact Nat.succ_ne_zero _
    have hprev : (if current.version = 0 then 1 else current.version) = current.version :=
      if_neg hvpos
    rw [updateDocument_some s id u current hd]
    intro d hdm
    obtain ⟨d0, hd0, rfl⟩ := List.mem_map.mp hdm
    by_cases hb : (d0.id == id) = true
    · have hd0id : d0.id = id := by simpa using hb
      have hEq : d0 = current := List.inj_on_of_nodup_map h3 hd0 hcur (by rw [hd0id, hcideq])
      subst hEq
      rw [if_pos hb]
      show ((if d0.version = 0 then 1 else d0.version) + 1)
          = maxVersionOf ((s.documentVersions ++
              [({ id := s.nextVersionId
                  documentId := id
                  version := if d0.version = 0 then 1 else d0.version
                  content := d0.content } : DocumentVersionRow)]).filter
            (fun v => v.documentId == d0.id)) + 1
      rw [hprev, List.filter_append]
      have hone : [({ id := s.nextVersionId
                      documentId := id
                      version := d0.version
                      content := d0.content } : DocumentVersionRow)].filter
            (fun v => v.documentId == d0.id)
          = [({ id := s.nextVersionId
                documentId := id
                version := d0.version
                content := d0.content } : DocumentVersionRow)] := by
        simp [hcideq]
      rw [hone, maxVersionOf_append_single]
      unfold versionsOf at hver
      have hrowv : ({ id := s.nextVersionId
                      documentId := id
                      version := d0.version
                      content := d0.content } : DocumentVersionRow).version
          = d0.version := rfl
      rw [hrowv]
      omega
    · rw [if_neg hb]
      have hne : (id == d0.id) = false := by
        have hne0 : ¬ d0.id = id := by simpa using hb
        exact beq_eq_false_iff_ne.mpr (fun hh => hne0 hh.symm)
      show d0.version = maxVersionOf ((s.documentVersions ++
          [({ id := s.nextVersionId
              documentId := id
              version := if current.version = 0 then 1 else current.version
              content := current.content } : DocumentVersionRow)]).filter
        (fun v => v.documentId == d0.id)) + 1
      rw [List.filter_append]
      have hzero : [({ id := s.nextVersionId
                       documentId := id
                       version := if current.version = 0 then 1 else current.version
                       content := current.content } : DocumentVersionRow)].filter
            (fun v => v.documentId == d0.id) = [] := by
        simp [hne]
      rw [hzero, List.append_nil]
      exact h d0 hd0

theorem storeStep_good {s t : StoreState} (hst : StoreStep s t)
    (h : wfStore s ∧ versionInvariant s) : wfStore t ∧ versionInvariant t := by
  cases hst with
  | createWorkflow data =>
    exact ⟨wfStore_createWorkflow s data h.1, inv_createWorkflow s data h.2⟩
  | updateWorkflow id u =>
    exact ⟨wfStore_updateWorkflow s id u h.1, inv_updateWorkflow s id u h.2⟩
  | deleteWorkflow id =>
    exact ⟨wfStore_deleteWorkflow s id h.1, inv_deleteWorkflow s id h.1 h.2⟩
  | duplicateWorkflow id =>
    exact ⟨wfStore_duplicateWorkflow s id h.1, inv_duplicateWorkflow s id h.2⟩
  | createDocument data =>
    exact ⟨wfStore_createDocument s data h.1, inv_createDocument s data h.1 h.2⟩
  | updateDocument id u =>
    exact ⟨wfStore_updateDocument s id u h.1, inv_updateDocument s id u h.1 h.2⟩
  | deleteDocument id =>
    exact ⟨wfStore_deleteDocument s id h.1, inv_deleteDocument s id h.2⟩
  | setConstitution c =>
    exact ⟨wfStore_setConstitution s c h.1, inv_setConstitution s c h.2⟩

theorem reachable_wf_inv {s : StoreState} (h : Reachable s) :
    wfStore s ∧ versionInvariant s := by
  induction h with
  | init =>
    refine ⟨⟨?_, ?_, ?_⟩, ?_⟩
    · intro d hd
      exact absurd hd (List.not_mem_nil d)
    · intro v hv
      exact absurd hv (List.not_mem_nil v)
    · exact List.nodup_nil
    · intro d hd
      exact absurd hd (List.not_mem_nil d)
  | step hr hst ih => exact storeStep_good hst ih

/-! ## Lemmas: version history bookkeeping -/

theorem versionsOf_fresh (s : StoreState) (hwf : wfStore s) :
    versionsOf s s.nextDocumentId = [] := by
  unfold versionsOf
  rw [List.filter_eq_nil_iff]
  intro v hv
  have := hwf.2.1 v hv
  simp only [beq_iff_eq]
  omega

theorem getDocument_createDocument (s : StoreState) (data : InsertDocument) (hwf : wfStore s) :
    getDocument (createDocument s data).1 (newDocument s data).id = some (newDocument s data) := by
  show (s.documents ++ [newDocument s data]).find? (fun d => d.id == s.nextDocumentId)
    = some (newDocument s data)
  rw [List.find?_append]
  have hnone : s.documents.find? (fun d => d.id == s.nextDocumentId) = none := by
    rw [List.find?_eq_none]
    intro d hd
    have := hwf.1 d hd
    simp only [beq_iff_eq]
    omega
  rw [hnone]
  simp [List.find?_cons, newDocument]

theorem getDocument_updateDocument_some (t : StoreState) (id : Nat) (u : DocumentUpdates)
    (d : DocumentRow) (hd : getDocument t id = some d) (hv : d.version ≠ 0) :
    getDocument (updateDocument t id u).1 id = some (applyDocumentUpdates u (d.version + 1) d) := by
  rw [updateDocument_some t id u d hd]
  have hdid : (d.id == id) = true :=
    @List.find?_some DocumentRow (fun x => x.id == id) d t.documents hd
  show (t.documents.map (fun x => if (x.id == id) = true then
      applyDocumentUpdates u ((if d.version = 0 then 1 else d.version) + 1) x else x)).find?
    (fun x => x.id == id) = some (applyDocumentUpdates u (d.version + 1) d)
  rw [find?_map_comm _ _ _ (fun x => by
    by_cases hb : (x.id == id) = true <;> simp [hb, applyDocumentUpdates_id])]
  have hfind : t.documents.find? (fun x => x.id == id) = some d := hd
  rw [hfind]
  show some (if (d.id == id) = true then
      applyDocumentUpdates u ((if d.version = 0 then 1 else d.version) + 1) d else d)
    = some (applyDocumentUpdates u (d.version + 1) d)
  rw [if_pos hdid, if_neg hv]

theorem versionsOf_updateDocument_self (t : StoreState) (id : Nat) (u : DocumentUpdates)
    (d : DocumentRow) (hd : getDocument t id = some d) (hv : d.version ≠ 0) :
    versionsOf (updateDocument t id u).1 id
      = versionsOf t id ++ [{ id := t.nextVersionId
                              documentId := id
                              version := d.version
                              content := d.content }] := by
  rw [updateDocument_some t id u d hd]
  show (t.documentVersions ++ [({ id := t.nextVersionId
                                  documentId := id
                                  version := if d.version = 0 then 1 else d.version
                                  content := d.content } : DocumentVersionRow)]).filter
      (fun v => v.documentId == id)
    = versionsOf t id ++ [{ id := t.nextVersionId
                            documentId := id
                            version := d.version
                            content := d.content }]
  rw [List.filter_append, if_neg hv]
  congr 1
  simp

theorem applyContentUpdates_spec (cs : List String) :
    ∀ (t : StoreState) (id : Nat) (d : DocumentRow),
      getDocument t id = some d → d.version ≠ 0 →
      ∃ d2 : DocumentRow,
        getDocument (applyContentUpdates t id cs) id = some d2 ∧
        d2.version = d.version + cs.length ∧
        d2.content = cs.getLastD d.content ∧
        (versionsOf (applyContentUpdates t id cs) id).map pairVC
          = (versionsOf t id).map pairVC ++ ascHistory d.version d.content cs := by
  induction cs with
  | nil =>
    intro t id d hd hv
    exact ⟨d, hd, by simp, rfl, by simp [ascHistory, applyContentUpdates]⟩
  | cons c cs ih =>
    intro t id d hd hv
    simp only [applyContentUpdates]
    have hstep := getDocument_updateDocument_some t id { content := some c } d hd hv
    have hvers := versionsOf_updateDocument_self t id { content := some c } d hd hv
    have hd1v : (applyDocumentUpdates { content := some c } (d.version + 1) d).version
        = d.version + 1 := rfl
    have hd1c : (applyDocumentUpdates { content := some c } (d.version + 1) d).content = c := rfl
    obtain ⟨d2, hget, hver2, hcont2, hmap2⟩ :=
      ih (updateDocument t id { content := some c }).1 id
        (applyDocumentUpdates { content := some c } (d.version + 1) d) hstep
        (by rw [hd1v]; exact Nat.succ_ne_zero _)
    refine ⟨d2, ?_, ?_, ?_, ?_⟩
    · exact hget
    · rw [hver2, hd1v, List.length_cons]
      omega
    · rw [hcont2, hd1c, List.getLastD_cons]
    · rw [hmap2, hvers, hd1v, hd1c, List.map_append]
      show (versionsOf t id).map pairVC ++ [(d.version, d.content)]
          ++ ascHistory (d.version + 1) c cs
        = (versionsOf t id).map pairVC ++ ascHistory d.version d.content (c :: cs)
      rw [List.append_assoc]
      rfl

theorem insertByVersionDesc_at_end (v : DocumentVersionRow) (l : List DocumentVersionRow)
    (h : ∀ w ∈ l, v.version < w.version) : insertByVersionDesc v l = l ++ [v] := by
  induction l with
  | nil => rfl
  | cons w ws ih =>
    have hw := h w (List.mem_cons_self _ _)
    simp only [insertByVersionDesc]
    rw [if_neg (by omega)]
    rw [ih (fun w2 hw2 => h w2 (List.mem_cons_of_mem _ hw2))]
    rfl

theorem sortByVersionDesc_of_ascending (l : List DocumentVersionRow)
    (h : List.Pairwise (fun a b => a.version < b.version) l) :
    sortByVersionDesc l = l.reverse := by
  induction l with
  | nil => rfl
  | cons a l ih =>
    show insertByVersionDesc a (sortByVersionDesc l) = (a :: l).reverse
    rw [ih (List.pairwise_cons.mp h).2, List.reverse_cons]
    exact insertByVersionDesc_at_end a l.reverse
      (fun w hw => (List.pairwise_cons.mp h).1 w (List.mem_reverse.mp hw))

theorem ascHistory_map_fst (cs : List String) : ∀ (v : Nat) (cur : String),
    (ascHistory v cur cs).map Prod.fst = List.range' v cs.length := by
  induction cs with
  | nil => intro v cur; rfl
  | cons c cs ih =>
    intro v cur
    show v :: (ascHistory (v + 1) c cs).map Prod.fst = List.range' v (cs.length + 1)
    rw [ih, List.range'_succ]

theorem ascHistory_length (cs : List String) : ∀ (v : Nat) (cur : String),
    (ascHistory v cur cs).length = cs.length := by
  induction cs with
  | nil => intro v cur; rfl
  | cons c cs ih =>
    intro v cur
    show (ascHistory (v + 1) c cs).length + 1 = cs.length + 1
    rw [ih]

/-! ## Lemmas: the execution route -/

theorem str_empty_append (s : String) : "" ++ s = s := rfl

theorem getWorkflow_updateWorkflow_self (s : StoreState) (id : Nat) (u : WorkflowUpdates)
    (w : WorkflowRow) (hw : getWorkflow s id = some w) :
    getWorkflow (updateWorkflow s id u).1 id = some (applyWorkflowUpdates u w) := by
  rw [getWorkflow_updateWorkflow, hw]
  show some (if (w.id == id) = true then applyWorkflowUpdates u w else w)
    = some (applyWorkflowUpdates u w)
  rw [if_pos (@List.find?_some WorkflowRow (fun x => x.id == id) w s.workflows hw)]

theorem updateWorkflow_status_after (s : StoreState) (id : Nat) (st : String)
    (w : WorkflowRow) (hw : getWorkflow s id = some w) :
    (getWorkflow (updateWorkflow s id { status := some st }).1 id).map (fun x => x.status)
      = some st := by
  rw [getWorkflow_updateWorkflow_self s id _ w hw]
  rfl

theorem filterMap_contentText_frame (es : List StreamEvent) (e : StreamEvent) (k : Nat)
    (he : contentText e = none) :
    (StreamEvent.step k :: es ++ [e]).filterMap contentText = es.filterMap contentText := by
  have h1 : contentText (StreamEvent.step k) = none := rfl
  simp [List.filterMap_cons, List.filterMap_append, h1, he]

theorem executeWorkflowRoute_success_eq (s : StoreState) (id : Nat)
    (chunks : List (Option String)) (today : String) (w : WorkflowRow)
    (hw : getWorkflow s id = some w) :
    executeWorkflowRoute s id (ProviderStream.success chunks) today
      = Except.ok
          ((updateWorkflow
              (createDocument (updateWorkflow s id { status := some "in_progress" }).1
                (executeDocData id w today (relay chunks).1)).1
              id { status := some "completed" }).1,
            StreamEvent.step 0 :: (relay chunks).2
              ++ [StreamEvent.done
                  (createDocument (updateWorkflow s id { status := some "in_progress" }).1
                    (executeDocData id w today (relay chunks).1)).2]) := by
  have hrelay : chunks.foldl relayStep ("", []) = ((relay chunks).1, (relay chunks).2) :=
    foldl_relayStep_eq chunks "" []
  unfold executeWorkflowRoute
  rw [hw]
  simp only [hrelay]
  rfl

theorem executeWorkflowRoute_failure_eq (s : StoreState) (id : Nat)
    (chunks : List (Option String)) (today : String) (w : WorkflowRow)
    (hw : getWorkflow s id = some w) :
    executeWorkflowRoute s id (ProviderStream.failureAfter chunks) today
      = Except.ok
          ((updateWorkflow (updateWorkflow s id { status := some "in_progress" }).1
              id { status := some "error" }).1,
            StreamEvent.step 0 :: (relay chunks).2
              ++ [StreamEvent.failure "Failed to generate content"]) := by
  have hrelay : chunks.foldl relayStep ("", []) = ((relay chunks).1, (relay chunks).2) :=
    foldl_relayStep_eq chunks "" []
  unfold executeWorkflowRoute
  rw [hw]
  simp only [hrelay]

/-! ## The claims -/

set_option maxRecDepth 1000000 in
/-- C10 counterexample: supplying `sprint_duration` with the empty-string
value makes the `scrum_master` rendering contain the sentinel
`[sprint_duration not specified]`, while supplying no variable at all
leaves the rendering sentinel-free (the literal placeholder stays), so an
empty value does NOT behave exactly as if the variable had not been
supplied. -/
theorem C10_counterexample :
    strContains (getPromptForAgent AgentType.scrum_master
        [{ key := "sprint_duration", value := "" }] none)
      (sentinelStr "sprint_duration") = true
    ∧ strContains (getPromptForAgent AgentType.scrum_master [] none)
      (sentinelStr "sprint_duration") = false := by
  constructor
  · have h1 : getPromptForAgent AgentType.scrum_master
        [{ key := "sprint_duration", value := "" }] none
        = replaceAllStr (PROMPTS AgentType.scrum_master)
            (placeholderStr "sprint_duration") (sentinelStr "sprint_duration") := rfl
    rw [h1, strContains_replaceAllStr]
    exact contains_repl_after_replaceAll _ _ _
      (placeholderStr_data_ne_nil _) (sentinelStr_data_ne_nil _) (by decide)
  · decide

/-- C10 amended: a variable supplied with the empty-string value is
substituted by the non-empty sentinel `[key not specified]`, never by the
empty string: processing it replaces every exact occurrence of `{{key}}`
by the sentinel.  This differs from not supplying the variable, which
leaves the placeholder text untouched (see the counterexample). -/
theorem C10_amended_empty_value_sentinel (t : String) (k : String) (ds : Option String)
    (rest : List ContextVariable) :
    substituteVars t ({ key := k, value := "", description := ds } :: rest)
        = substituteVars
            (strIntercalate (sentinelStr k) (strSplitOn t (placeholderStr k))) rest
      ∧ 0 < (sentinelStr k).length := by
  constructor
  · show substituteVars
        (replaceAllStr t (placeholderStr k)
          (substValue { key := k, value := "", description := ds })) rest
      = substituteVars (strIntercalate (sentinelStr k) (strSplitOn t (placeholderStr k))) rest
    rw [show substValue { key := k, value := "", description := ds } = sentinelStr k from rfl,
        replaceAllStr_eq_intercalate]
  · show 0 < ("[" ++ k ++ " not specified]").length
    rw [String.length_append, String.length_append]
    have h1 : ("[" : String).length = 1 := rfl
    omega

set_option maxRecDepth 1000000 in
/-- C1 counterexample: the `scrum_master` template contains the placeholder
`{{sprint_duration}}`, yet rendering it with an empty variable list (no
variable keyed `sprint_duration` supplied) leaves the literal `{{x}}` text
in the output and introduces no sentinel, contradicting the claim that an
unsupplied placeholder is replaced by the sentinel. -/
theorem C1_counterexample :
    strContains (getPromptForAgent AgentType.scrum_master [] none)
      (placeholderStr "sprint_duration") = true
    ∧ strContains (getPromptForAgent AgentType.scrum_master [] none)
      (sentinelStr "sprint_duration") = false := by
  constructor <;> decide

/-- C1 amended: the substitution loop iterates over the supplied variables
only, so an unsupplied key is never rewritten.  With no variables supplied
and no constitution, the rendered output is the template itself: for a
template containing the placeholder `{{x}}` and free of the sentinel text
for `x` (as every agent template is), the output still contains the
literal `{{x}}` and contains no sentinel for `x`.  The statement is scoped
to the empty variable list because with other variables supplied an
adversarial value (for instance the sentinel string itself) can inject the
sentinel into the output. -/
theorem C1_amended_unsupplied_left_literal (a : AgentType) (x : String)
    (hx : strContains (PROMPTS a) (placeholderStr x) = true)
    (hs : strContains (PROMPTS a) (sentinelStr x) = false) :
    getPromptForAgent a [] none = PROMPTS a
    ∧ strContains (getPromptForAgent a [] none) (placeholderStr x) = true
    ∧ strContains (getPromptForAgent a [] none) (sentinelStr x) = false :=
  ⟨rfl, hx, hs⟩

set_option maxRecDepth 1000000 in
/-- Witness for the amended C1 at the `scrum_master` template and key
`sprint_duration`: the template contains the placeholder and no sentinel,
and the render with no variables keeps the placeholder and stays
sentinel-free. -/
theorem C1_witness :
    strContains (PROMPTS AgentType.scrum_master) (placeholderStr "sprint_duration") = true
    ∧ strContains (PROMPTS AgentType.scrum_master) (sentinelStr "sprint_duration") = false
    ∧ (getPromptForAgent AgentType.scrum_master [] none = PROMPTS AgentType.scrum_master
      ∧ strContains (getPromptForAgent AgentType.scrum_master [] none)
          (placeholderStr "sprint_duration") = true
      ∧ strContains (getPromptForAgent AgentType.scrum_master [] none)
          (sentinelStr "sprint_duration") = false) := by
  have hx : strContains (PROMPTS AgentType.scrum_master)
      (placeholderStr "sprint_duration") = true := by decide
  have hs : strContains (PROMPTS AgentType.scrum_master)
      (sentinelStr "sprint_duration") = false := by decide
  exact ⟨hx, hs,
    C1_amended_unsupplied_left_literal AgentType.scrum_master "sprint_duration" hx hs⟩

set_option maxRecDepth 1000000 in
/-- C6 counterexample: with an absent constitution the reserved placeholder
is NOT substituted: the `architect` rendering still contains the literal
`{{constitution_file}}` and does not contain the fixed phrase
`the project constitution`, contradicting the claim that the
reserved-placeholder substitution happens even for an empty or absent
constitution. -/
theorem C6_counterexample :
    strContains (getPromptForAgent AgentType.architect [] none)
      constitutionPlaceholder = true
    ∧ strContains (getPromptForAgent AgentType.architect [] none)
      constitutionPhrase = false := by
  constructor <;> decide

/-- C6 amended: a non-empty constitution string yields the rendered
template with every exact occurrence of the reserved placeholder
`{{constitution_file}}` replaced by the fixed phrase, followed by the
delimited constitution section carrying the constitution verbatim; an
empty or absent constitution leaves the rendered template completely
unchanged — in particular the reserved placeholder is then NOT
substituted. -/
theorem C6_amended_constitution (a : AgentType) (vs : List ContextVariable) (c : String)
    (hc : c ≠ "") :
    (∃ p, getPromptForAgent a vs (some c) = p ++ "\n\n---\nProject Constitution:\n" ++ c
      ∧ p = strIntercalate constitutionPhrase
          (strSplitOn (substituteVars (PROMPTS a) vs) constitutionPlaceholder)
      ∧ strIntercalate constitutionPlaceholder
          (strSplitOn (substituteVars (PROMPTS a) vs) constitutionPlaceholder)
        = substituteVars (PROMPTS a) vs)
    ∧ getPromptForAgent a vs (some "") = substituteVars (PROMPTS a) vs
    ∧ getPromptForAgent a vs none = substituteVars (PROMPTS a) vs := by
  refine ⟨⟨replaceAllStr (substituteVars (PROMPTS a) vs)
      constitutionPlaceholder constitutionPhrase, ?_, ?_, ?_⟩, rfl, rfl⟩
  · show (if c = "" then substituteVars (PROMPTS a) vs
      else replaceAllStr (substituteVars (PROMPTS a) vs)
          constitutionPlaceholder constitutionPhrase
        ++ "\n\n---\nProject Constitution:\n" ++ c)
      = replaceAllStr (substituteVars (PROMPTS a) vs)
          constitutionPlaceholder constitutionPhrase
        ++ "\n\n---\nProject Constitution:\n" ++ c
    rw [if_neg hc]
  · exact replaceAllStr_eq_intercalate _ _ _
  · exact strIntercalate_strSplitOn _ _ (placeholderStr_data_ne_nil _)

/-- Witness for the amended C6 at the `analyst` template with no variables
and the constitution `Be safe.`. -/
theorem C6_witness :
    ("Be safe." ≠ "")
    ∧ ((∃ p, getPromptForAgent AgentType.analyst [] (some "Be safe.")
          = p ++ "\n\n---\nProject Constitution:\n" ++ "Be safe."
        ∧ p = strIntercalate constitutionPhrase
            (strSplitOn (substituteVars (PROMPTS AgentType.analyst) [])
              constitutionPlaceholder)
        ∧ strIntercalate constitutionPlaceholder
            (strSplitOn (substituteVars (PROMPTS AgentType.analyst) [])
              constitutionPlaceholder)
          = substituteVars (PROMPTS AgentType.analyst) [])
      ∧ getPromptForAgent AgentType.analyst [] (some "")
          = substituteVars (PROMPTS AgentType.analyst) []
      ∧ getPromptForAgent AgentType.analyst [] none
          = substituteVars (PROMPTS AgentType.analyst) []) := by
  have hc : ("Be safe." : String) ≠ "" := by decide
  exact ⟨hc, C6_amended_constitution AgentType.analyst [] "Be safe." hc⟩

/-- C8 counterexample: with a malformed non-empty provider response the
validation route answers the generic 500 error, not the empty result
object: `JSON.parse` throws and the surrounding catch-all propagates the
failure instead of absorbing it into `{}`. -/
theorem C8_counterexample :
    validateDocumentRoute (some { id := 1, agentType := AgentType.analyst, title := "T", content := "c", outputType := "O" }) (some "not json")
      = ValidateOutcome.serverError "Failed to validate document"
    ∧ validateDocumentRoute (some { id := 1, agentType := AgentType.analyst, title := "T", content := "c", outputType := "O" }) (some "not json")
      ≠ ValidateOutcome.ok (Json.obj []) := by
  have hval : validateDocumentRoute (some { id := 1, agentType := AgentType.analyst, title := "T", content := "c", outputType := "O" }) (some "not json")
      = ValidateOutcome.serverError "Failed to validate document" := rfl
  refine ⟨hval, fun h => ?_⟩
  rw [hval] at h
  exact ValidateOutcome.noConfusion h

/-- C8 amended: when the provider's structured content is absent or empty
the route parses the substituted `"{}"` and returns the empty result
object; when the content is non-empty but malformed JSON, the parse
failure propagates to the route's catch-all, which answers the generic
500 error — not an empty object. -/
theorem C8_amended_parse (doc : DocumentRow) (content : String)
    (hbad : jsonParse content = none) (hne : content ≠ "") :
    validateDocumentRoute (some doc) (some content)
        = ValidateOutcome.serverError "Failed to validate document"
    ∧ validateDocumentRoute (some doc) none = ValidateOutcome.ok (Json.obj [])
    ∧ validateDocumentRoute (some doc) (some "") = ValidateOutcome.ok (Json.obj []) := by
  refine ⟨?_, rfl, rfl⟩
  show (match jsonParse (if content = "" then "\x7b\x7d" else content) with
    | some v => ValidateOutcome.ok v
    | none => ValidateOutcome.serverError "Failed to validate document")
    = ValidateOutcome.serverError "Failed to validate document"
  rw [if_neg hne, hbad]

/-- Witness for the amended C8 at a concrete document and the provider
reply `not json`. -/
theorem C8_witness :
    (jsonParse "not json" = none ∧ "not json" ≠ "")
    ∧ (validateDocumentRoute (some { id := 1, agentType := AgentType.analyst, title := "T", content := "c", outputType := "O" }) (some "not json")
        = ValidateOutcome.serverError "Failed to validate document"
      ∧ validateDocumentRoute (some { id := 1, agentType := AgentType.analyst, title := "T", content := "c", outputType := "O" }) none = ValidateOutcome.ok (Json.obj [])
      ∧ validateDocumentRoute (some { id := 1, agentType := AgentType.analyst, title := "T", content := "c", outputType := "O" }) (some "")
        = ValidateOutcome.ok (Json.obj [])) := by
  have hbad : jsonParse "not json" = none := rfl
  have hne : ("not json" : String) ≠ "" := by decide
  exact ⟨⟨hbad, hne⟩,
    C8_amended_parse { id := 1, agentType := AgentType.analyst, title := "T", content := "c", outputType := "O" } "not json" hbad hne⟩

/-- C9: deleting a workflow removes every document it owns and, through
the declared cascades, all of those documents' version rows; afterwards
looking any of those document ids up reports not-found (and the workflow
itself is gone). -/
theorem C9_delete_workflow_cascade (s : StoreState) (wid : Nat) (d : DocumentRow)
    (hwf : wfStore s) (hd : d ∈ s.documents) (hw : d.workflowId = some wid) :
    getDocument (deleteWorkflow s wid) d.id = none
    ∧ getDocumentVersions (deleteWorkflow s wid) d.id = []
    ∧ getWorkflow (deleteWorkflow s wid) wid = none := by
  obtain ⟨h1, h2, h3⟩ := hwf
  refine ⟨?_, ?_, ?_⟩
  · show (s.documents.filter (fun d0 => !(d0.workflowId == some wid))).find?
        (fun d0 => d0.id == d.id) = none
    rw [List.find?_eq_none]
    intro d2 hd2
    have hd2surv : (d2.workflowId == some wid) = false := by
      simpa using
        @List.of_mem_filter DocumentRow (fun d0 => !(d0.workflowId == some wid)) d2 _ hd2
    have hd2mem := List.mem_of_mem_filter hd2
    intro hbeq
    have hid : d2.id = d.id := by simpa using hbeq
    have hEq : d2 = d := List.inj_on_of_nodup_map h3 hd2mem hd hid
    rw [hEq, hw] at hd2surv
    simp at hd2surv
  · show sortByVersionDesc ((s.documentVersions.filter (fun v =>
        !(((s.documents.filter (fun d0 => d0.workflowId == some wid)).map
          (fun d0 => d0.id)).contains v.documentId))).filter
      (fun v => v.documentId == d.id)) = []
    have hnil : (s.documentVersions.filter (fun v =>
        !(((s.documents.filter (fun d0 => d0.workflowId == some wid)).map
          (fun d0 => d0.id)).contains v.documentId))).filter
        (fun v => v.documentId == d.id) = [] := by
      rw [List.filter_eq_nil_iff]
      intro v hv
      have hsurv : (((s.documents.filter (fun d0 => d0.workflowId == some wid)).map
          (fun d0 => d0.id)).contains v.documentId) = false := by
        simpa using @List.of_mem_filter DocumentVersionRow
          (fun v0 => !(((s.documents.filter (fun d0 => d0.workflowId == some wid)).map
            (fun d0 => d0.id)).contains v0.documentId)) v _ hv
      intro hbeq
      have hvd : v.documentId = d.id := by simpa using hbeq
      have hmemdel : d.id ∈ (s.documents.filter (fun d0 => d0.workflowId == some wid)).map
          (fun d0 => d0.id) :=
        List.mem_map.mpr ⟨d, List.mem_filter.mpr ⟨hd, by simp [hw]⟩, rfl⟩
      have hcont2 : ((s.documents.filter (fun d0 => d0.workflowId == some wid)).map
          (fun d0 => d0.id)).contains d.id = true := by
        simpa using hmemdel
      rw [hvd, hcont2] at hsurv
      exact Bool.noConfusion hsurv
    rw [hnil]
    rfl
  · show (s.workflows.filter (fun w0 => !(w0.id == wid))).find?
        (fun w0 => w0.id == wid) = none
    rw [List.find?_eq_none]
    intro w0 hw0
    have hws : (w0.id == wid) = false := by
      simpa using @List.of_mem_filter WorkflowRow (fun x => !(x.id == wid)) w0 _ hw0
    simp [hws]

/-- Witness for C9 at a one-workflow, one-document, one-version store. -/
theorem C9_witness :
    (wfStore cascadeStore
      ∧ cascadeDoc ∈ cascadeStore.documents
      ∧ cascadeDoc.workflowId = some 1)
    ∧ (getDocument (deleteWorkflow cascadeStore 1) cascadeDoc.id = none
      ∧ getDocumentVersions (deleteWorkflow cascadeStore 1) cascadeDoc.id = []
      ∧ getWorkflow (deleteWorkflow cascadeStore 1) 1 = none) := by
  have hwf : wfStore cascadeStore := by
    unfold wfStore
    decide
  refine ⟨⟨hwf, by decide, rfl⟩, ?_⟩
  exact C9_delete_workflow_cascade cascadeStore 1 cascadeDoc hwf (by decide) rfl

/-- C3: every store state reachable from the empty database through the
mutating store operations satisfies the version invariant: each document
row's `version` equals one greater than the highest `version` among its
version rows, hence 1 when it has none (`createDocumentVersion` occurs
only as the internal first half of `updateDocument`). -/
theorem C3_version_invariant (s : StoreState) (h : Reachable s) : versionInvariant s :=
  (reachable_wf_inv h).2

/-- Witness for C3: the invariant in the concrete store reached by creating
a document and then editing it once. -/
theorem C3_witness :
    versionInvariant ((updateDocument ((createDocument initialStore
        { agentType := AgentType.analyst, title := "T", content := "v1",
          outputType := "O" }).1) 1 { content := some "v2" }).1) :=
  C3_version_invariant _
    (Reachable.step (Reachable.step Reachable.init
        (StoreStep.createDocument initialStore
          { agentType := AgentType.analyst, title := "T", content := "v1",
            outputType := "O" }))
      (StoreStep.updateDocument _ 1 { content := some "v2" }))

/-- C2: creating a document and then applying N successful content edits
leaves exactly N version rows for that document; the version-history query
lists them in descending version order, each row carrying the version
number and content the document had immediately before the corresponding
edit; the live row carries version 1 + N and only it carries the final
content. -/
theorem C2_create_edit_versioning (s : StoreState) (data : InsertDocument)
    (cs : List String) (hwf : wfStore s) :
    ∃ d2 : DocumentRow,
      getDocument (applyContentUpdates (createDocument s data).1
          (createDocument s data).2.id cs) (createDocument s data).2.id = some d2
      ∧ d2.version = 1 + cs.length
      ∧ d2.content = cs.getLastD data.content
      ∧ (getDocumentVersions (applyContentUpdates (createDocument s data).1
            (createDocument s data).2.id cs) (createDocument s data).2.id).map pairVC
          = (ascHistory 1 data.content cs).reverse
      ∧ (getDocumentVersions (applyContentUpdates (createDocument s data).1
            (createDocument s data).2.id cs) (createDocument s data).2.id).length
          = cs.length := by
  have hdoc : getDocument (createDocument s data).1 (createDocument s data).2.id
      = some (newDocument s data) := getDocument_createDocument s data hwf
  obtain ⟨d2, hget, hver, hcont, hmap⟩ :=
    applyContentUpdates_spec cs (createDocument s data).1 (createDocument s data).2.id
      (newDocument s data) hdoc Nat.one_ne_zero
  have hfresh : versionsOf (createDocument s data).1 (createDocument s data).2.id = [] := by
    show versionsOf s s.nextDocumentId = []
    exact versionsOf_fresh s hwf
  have hmap2 : (versionsOf (applyContentUpdates (createDocument s data).1
      (createDocument s data).2.id cs) (createDocument s data).2.id).map pairVC
      = ascHistory 1 data.content cs := by
    rw [hmap, hfresh]
    show List.map pairVC [] ++ ascHistory 1 data.content cs = ascHistory 1 data.content cs
    rw [List.map_nil, List.nil_append]
  have hverlist : (versionsOf (applyContentUpdates (createDocument s data).1
      (createDocument s data).2.id cs) (createDocument s data).2.id).map
        (fun v => v.version)
      = List.range' 1 cs.length := by
    have h7 := congrArg (List.map Prod.fst) hmap2
    rw [List.map_map, ascHistory_map_fst] at h7
    exact h7
  have hpair : List.Pairwise (fun a b : DocumentVersionRow => a.version < b.version)
      (versionsOf (applyContentUpdates (createDocument s data).1
        (createDocument s data).2.id cs) (createDocument s data).2.id) := by
    have h8 : List.Pairwise (fun a b : Nat => a < b)
        ((versionsOf (applyContentUpdates (createDocument s data).1
          (createDocument s data).2.id cs) (createDocument s data).2.id).map
            (fun v => v.version)) := by
      rw [hverlist]
      exact List.pairwise_lt_range' 1 cs.length
    exact List.pairwise_map.mp h8
  have hsorted : getDocumentVersions (applyContentUpdates (createDocument s data).1
        (createDocument s data).2.id cs) (createDocument s data).2.id
      = (versionsOf (applyContentUpdates (createDocument s data).1
          (createDocument s data).2.id cs) (createDocument s data).2.id).reverse := by
    show sortByVersionDesc (versionsOf (applyContentUpdates (createDocument s data).1
        (createDocument s data).2.id cs) (createDocument s data).2.id) = _
    exact sortByVersionDesc_of_ascending _ hpair
  refine ⟨d2, hget, ?_, hcont, ?_, ?_⟩
  · rw [hver]
    show 1 + cs.length = 1 + cs.length
    rfl
  · rw [hsorted, List.map_reverse, hmap2]
  · rw [hsorted, List.length_reverse]
    have h9 := congrArg List.length hmap2
    rw [List.length_map, ascHistory_length] at h9
    exact h9

/-- Witness for C2: in the empty store, create a document with content
`v1` and edit it to `v2`, then `v3`. -/
theorem C2_witness :
    wfStore initialStore
    ∧ (∃ d2 : DocumentRow,
      getDocument (applyContentUpdates (createDocument initialStore
          { agentType := AgentType.analyst, title := "T", content := "v1",
            outputType := "O" }).1
          (createDocument initialStore
            { agentType := AgentType.analyst, title := "T", content := "v1",
              outputType := "O" }).2.id ["v2", "v3"])
          (createDocument initialStore
            { agentType := AgentType.analyst, title := "T", content := "v1",
              outputType := "O" }).2.id = some d2
      ∧ d2.version = 1 + (["v2", "v3"] : List String).length
      ∧ d2.content = (["v2", "v3"] : List String).getLastD "v1"
      ∧ (getDocumentVersions (applyContentUpdates (createDocument initialStore
            { agentType := AgentType.analyst, title := "T", content := "v1",
              outputType := "O" }).1
            (createDocument initialStore
              { agentType := AgentType.analyst, title := "T", content := "v1",
                outputType := "O" }).2.id ["v2", "v3"])
          (createDocument initialStore
            { agentType := AgentType.analyst, title := "T", content := "v1",
              outputType := "O" }).2.id).map pairVC
          = (ascHistory 1 "v1" ["v2", "v3"]).reverse
      ∧ (getDocumentVersions (applyContentUpdates (createDocument initialStore
            { agentType := AgentType.analyst, title := "T", content := "v1",
              outputType := "O" }).1
            (createDocument initialStore
              { agentType := AgentType.analyst, title := "T", content := "v1",
                outputType := "O" }).2.id ["v2", "v3"])
          (createDocument initialStore
            { agentType := AgentType.analyst, title := "T", content := "v1",
              outputType := "O" }).2.id).length
          = (["v2", "v3"] : List String).length) := by
  have hwf : wfStore initialStore := by
    unfold wfStore
    decide
  exact ⟨hwf, C2_create_edit_versioning initialStore
    { agentType := AgentType.analyst, title := "T", content := "v1", outputType := "O" }
    ["v2", "v3"] hwf⟩

/-- C4: when the provider stream completes normally, the route emits the
initial step event, then the non-empty content chunks in delivery order,
then a terminal done event carrying the created document; the persisted
document's content is exactly the concatenation, in order, of the relayed
content chunks; the document is retrievable from the final store; and the
workflow's status ends up `completed`. -/
theorem C4_stream_success (s : StoreState) (id : Nat) (chunks : List (Option String))
    (today : String) (w : WorkflowRow) (hwf : wfStore s) (hw : getWorkflow s id = some w) :
    ∃ s2 events doc,
      executeWorkflowRoute s id (ProviderStream.success chunks) today = Except.ok (s2, events)
      ∧ events = StreamEvent.step 0 :: (relay chunks).2 ++ [StreamEvent.done doc]
      ∧ doc.content = concatStrings (events.filterMap contentText)
      ∧ getDocument s2 doc.id = some doc
      ∧ (getWorkflow s2 id).map (fun x => x.status) = some "completed" := by
  refine ⟨_, _, _, executeWorkflowRoute_success_eq s id chunks today w hw, rfl, ?_, ?_, ?_⟩
  · rw [filterMap_contentText_frame ((relay chunks).2)
        (StreamEvent.done (createDocument (updateWorkflow s id { status := some "in_progress" }).1
          (executeDocData id w today (relay chunks).1)).2) 0 rfl, relay_concat]
    rfl
  · exact getDocument_createDocument (updateWorkflow s id { status := some "in_progress" }).1
      (executeDocData id w today (relay chunks).1) hwf
  · exact updateWorkflow_status_after
      (createDocument (updateWorkflow s id { status := some "in_progress" }).1
        (executeDocData id w today (relay chunks).1)).1
      id "completed" (applyWorkflowUpdates { status := some "in_progress" } w)
      (getWorkflow_updateWorkflow_self s id { status := some "in_progress" } w hw)

/-- Witness for C4: a one-workflow store and a stream of four chunks (two
non-empty, one absent, one empty). -/
theorem C4_witness :
    wfStore execStore
    ∧ getWorkflow execStore 1 = some execRow
    ∧ (∃ s2 events doc,
        executeWorkflowRoute execStore 1 (ProviderStream.success execChunks) "2026-10-11"
          = Except.ok (s2, events)
        ∧ events = StreamEvent.step 0 :: (relay execChunks).2 ++ [StreamEvent.done doc]
        ∧ doc.content = concatStrings (events.filterMap contentText)
        ∧ getDocument s2 doc.id = some doc
        ∧ (getWorkflow s2 1).map (fun x => x.status) = some "completed") := by
  have hwf : wfStore execStore := by
    unfold wfStore
    decide
  have hw : getWorkflow execStore 1 = some execRow := rfl
  exact ⟨hwf, hw, C4_stream_success execStore 1 execChunks "2026-10-11" execRow hwf hw⟩

/-- C5: when the provider raises after emitting some chunks, the route
emits the initial step event, the already-relayed content chunks in order,
then a generic failure event and never a done event; no document row and no
version row is created; and the workflow's status ends up `error`. -/
theorem C5_stream_failure (s : StoreState) (id : Nat) (chunks : List (Option String))
    (today : String) (w : WorkflowRow) (hw : getWorkflow s id = some w) :
    ∃ s2 events,
      executeWorkflowRoute s id (ProviderStream.failureAfter chunks) today = Except.ok (s2, events)
      ∧ events = StreamEvent.step 0 :: (relay chunks).2
          ++ [StreamEvent.failure "Failed to generate content"]
      ∧ s2.documents = s.documents
      ∧ s2.documentVersions = s.documentVersions
      ∧ (∀ doc : DocumentRow, StreamEvent.done doc ∉ events)
      ∧ (getWorkflow s2 id).map (fun x => x.status) = some "error" := by
  refine ⟨_, _, executeWorkflowRoute_failure_eq s id chunks today w hw, rfl, rfl, rfl, ?_, ?_⟩
  · intro doc hmem
    simp only [List.mem_cons, List.mem_append, List.mem_singleton, List.not_mem_nil,
      or_false] at hmem
    rcases hmem with (h | h) | h
    · exact StreamEvent.noConfusion h
    · obtain ⟨t, ht⟩ := relay_events_are_content chunks _ h
      exact StreamEvent.noConfusion ht
    · exact StreamEvent.noConfusion h
  · exact updateWorkflow_status_after (updateWorkflow s id { status := some "in_progress" }).1
      id "error" (applyWorkflowUpdates { status := some "in_progress" } w)
      (getWorkflow_updateWorkflow_self s id { status := some "in_progress" } w hw)

/-- Witness for C5: the same one-workflow store with a provider that raises
after the same four chunks. -/
theorem C5_witness :
    getWorkflow execStore 1 = some execRow
    ∧ (∃ s2 events,
        executeWorkflowRoute execStore 1 (ProviderStream.failureAfter execChunks) "2026-10-11"
          = Except.ok (s2, events)
        ∧ events = StreamEvent.step 0 :: (relay execChunks).2
            ++ [StreamEvent.failure "Failed to generate content"]
        ∧ s2.documents = execStore.documents
        ∧ s2.documentVersions = execStore.documentVersions
        ∧ (∀ doc : DocumentRow, StreamEvent.done doc ∉ events)
        ∧ (getWorkflow s2 1).map (fun x => x.status) = some "error") := by
  have hw : getWorkflow execStore 1 = some execRow := rfl
  exact ⟨hw, C5_stream_failure execStore 1 execChunks "2026-10-11" execRow hw⟩

end SDD
